import Mathlib

/-!
Verification of the core packing engine of the `impact` texture-atlas packer.

The data model and the operations are shallowly embedded from the Rust
sources (`src/rect.rs`, `src/bin_packs/max_rects.rs`, `src/packer.rs`):
`i32` fields become `Int`, `Vec<Rect>` becomes `List Rect`, stateful
methods become functions from states to states, and `usize` index loops
are modelled with natural-number indices.  Rust's signed division `/`
truncates toward zero, so it is modelled with `Int.tdiv`.
-/

namespace Impact

/-- `Rect` from `src/rect.rs`: `{x, y, width, height}`, all `i32`. -/
structure Rect where
  x : Int
  y : Int
  width : Int
  height : Int
  deriving DecidableEq, Repr

/-- `Rect::default()`: all fields zero. -/
def Rect.default0 : Rect := ⟨0, 0, 0, 0⟩

/-- `Rect::is_contained_in` from `src/rect.rs`:
`self.x >= b.x && self.y >= b.y && self.x + self.width <= b.x + b.width
&& self.y + self.height <= b.y + b.height`. -/
def Rect.is_contained_in (a b : Rect) : Prop :=
  a.x ≥ b.x ∧ a.y ≥ b.y ∧ a.x + a.width ≤ b.x + b.width ∧
    a.y + a.height ≤ b.y + b.height

instance (a b : Rect) : Decidable (a.is_contained_in b) := by
  unfold Rect.is_contained_in; infer_instance

/-- The free function `disjoint(a, b)` from `src/rect.rs`:
`a.x + a.width <= b.x || b.x + b.width <= a.x || a.y + a.height <= b.y
|| b.y + b.height <= a.y`. -/
def rect_disjoint (a b : Rect) : Prop :=
  a.x + a.width ≤ b.x ∨ b.x + b.width ≤ a.x ∨ a.y + a.height ≤ b.y ∨
    b.y + b.height ≤ a.y

instance (a b : Rect) : Decidable (rect_disjoint a b) := by
  unfold rect_disjoint; infer_instance

/-- `DisjointRectCollection` from `src/rect.rs`. -/
structure DisjointRectCollection where
  rects : List Rect
  deriving DecidableEq, Repr

/-- `DisjointRectCollection::disjoint(&self, r)`: degenerate rectangles are
treated as disjoint; otherwise `r` must be disjoint from every member. -/
def DisjointRectCollection.disjoint (c : DisjointRectCollection) (r : Rect) : Prop :=
  (r.width = 0 ∨ r.height = 0) ∨ ∀ a ∈ c.rects, rect_disjoint a r

instance (c : DisjointRectCollection) (r : Rect) : Decidable (c.disjoint r) := by
  unfold DisjointRectCollection.disjoint; infer_instance

/-- `DisjointRectCollection::add(&mut self, r) -> bool`, returning the result
together with the updated collection. -/
def DisjointRectCollection.add (c : DisjointRectCollection) (r : Rect) :
    Bool × DisjointRectCollection :=
  if r.width = 0 ∨ r.height = 0 then (true, c)
  else if ¬ c.disjoint r then (false, c)
  else (true, ⟨c.rects ++ [r]⟩)

/-- `FreeRectChoiceHeuristic` from `src/bin_packs/max_rects.rs`. -/
inductive FreeRectChoiceHeuristic where
  | RectBestShortSideFit
  | RectBestLongSideFit
  | RectBestAreaFit
  | RectBottomLeftRule
  | RectContactPointRule
  deriving DecidableEq, Repr

/-- `MaxRectsBinPack` state from `src/bin_packs/max_rects.rs`. -/
structure MaxRectsBinPack where
  bin_width : Int
  bin_height : Int
  used_rectangles : List Rect
  free_rectangles : List Rect
  deriving DecidableEq, Repr

/-- `MaxRectsBinPack::new(width, height)`. -/
def MaxRectsBinPack.new (width height : Int) : MaxRectsBinPack :=
  ⟨width, height, [], [⟨0, 0, width, height⟩]⟩

/-- `i32::max_value()`. -/
def i32_max : Int := 2147483647

/-- `common_interval_length` from `src/bin_packs/max_rects.rs`. -/
def common_interval_length (i1start i1end i2start i2end : Int) : Int :=
  if i1end < i2start ∨ i2end < i1start then 0
  else min i1end i2end - max i1start i2start

/-- The `for rect in &self.used_rectangles` accumulation loop of
`contact_point_score_node`. -/
def contact_used_loop (x y width height : Int) : List Rect → Int → Int
  | [], score => score
  | rect :: rest, score =>
    let score :=
      if rect.x = x + width ∨ rect.x + rect.width = x then
        score + common_interval_length rect.y (rect.y + rect.height) y (y + height)
      else score
    let score :=
      if rect.y = y + height ∨ rect.y + rect.height = y then
        score + common_interval_length rect.x (rect.x + rect.width) x (x + width)
      else score
    contact_used_loop x y width height rest score

/-- `MaxRectsBinPack::contact_point_score_node`. -/
def contact_point_score_node (s : MaxRectsBinPack) (x y width height : Int) : Int :=
  let score : Int := 0
  let score := if x = 0 ∨ x + width = s.bin_width then score + height else score
  let score := if y = 0 ∨ y + height = s.bin_height then score + width else score
  contact_used_loop x y width height s.used_rectangles score

/-- Loop body of `find_position_for_new_node_best_short_side_fit` for one
free rectangle: the accumulator is
`(best_node, best_short_side_fit, best_long_side_fit)`.  Note the faithful
rendering of the source's self-assignment
`best_long_side_fit = best_long_side_fit`. -/
def bssf_step (width height : Int) (rot : Bool) (acc : Rect × Int × Int)
    (rect : Rect) : Rect × Int × Int :=
  let acc1 :=
    if rect.width ≥ width ∧ rect.height ≥ height then
      let leftover_horiz := |rect.width - width|
      let leftover_vert := |rect.height - height|
      let short_side_fit := min leftover_horiz leftover_vert
      let long_side_fit := max leftover_horiz leftover_vert
      if short_side_fit < acc.2.1 ∨
          (short_side_fit = acc.2.1 ∧ long_side_fit < acc.2.2) then
        (Rect.mk rect.x rect.y width height, short_side_fit, acc.2.2)
      else acc
    else acc
  if rot ∧ rect.width ≥ height ∧ rect.height ≥ width then
    let leftover_horiz := |rect.width - height|
    let leftover_vert := |rect.height - width|
    let short_side_fit := min leftover_horiz leftover_vert
    let long_side_fit := max leftover_horiz leftover_vert
    if short_side_fit < acc1.2.1 ∨
        (short_side_fit = acc1.2.1 ∧ long_side_fit < acc1.2.2) then
      (Rect.mk rect.x rect.y height width, short_side_fit, acc1.2.2)
    else acc1
  else acc1

/-- The `for rect in &self.free_rectangles` loop of
`find_position_for_new_node_best_short_side_fit`. -/
def bssf_loop (width height : Int) (rot : Bool) :
    List Rect → Rect × Int × Int → Rect × Int × Int
  | [], acc => acc
  | rect :: rest, acc =>
    bssf_loop width height rot rest (bssf_step width height rot acc rect)

/-- `MaxRectsBinPack::find_position_for_new_node_best_short_side_fit`. -/
def find_position_for_new_node_best_short_side_fit (s : MaxRectsBinPack)
    (rot : Bool) (width height : Int) : Rect × Int × Int :=
  bssf_loop width height rot s.free_rectangles (Rect.default0, i32_max, i32_max)

/-- Loop body of `find_position_for_new_node_best_long_side_fit` for one
free rectangle: the accumulator is
`(best_node, best_short_side_fit, best_long_side_fit)`; the function
finally returns `(best_node, best_long_side_fit, best_short_side_fit)`.
The source's self-assignment `best_long_side_fit = best_long_side_fit` is
rendered faithfully. -/
def blsf_step (width height : Int) (rot : Bool) (acc : Rect × Int × Int)
    (rect : Rect) : Rect × Int × Int :=
  let acc1 :=
    if rect.width ≥ width ∧ rect.height ≥ height then
      let leftover_horiz := |rect.width - width|
      let leftover_vert := |rect.height - height|
      let short_side_fit := min leftover_horiz leftover_vert
      let long_side_fit := max leftover_horiz leftover_vert
      if long_side_fit < acc.2.2 ∨
          (long_side_fit = acc.2.2 ∧ short_side_fit < acc.2.1) then
        (Rect.mk rect.x rect.y width height, short_side_fit, acc.2.2)
      else acc
    else acc
  if rot ∧ rect.width ≥ height ∧ rect.height ≥ width then
    let leftover_horiz := |rect.width - height|
    let leftover_vert := |rect.height - width|
    let short_side_fit := min leftover_horiz leftover_vert
    let long_side_fit := max leftover_horiz leftover_vert
    if long_side_fit < acc1.2.2 ∨
        (long_side_fit = acc1.2.2 ∧ short_side_fit < acc1.2.1) then
      (Rect.mk rect.x rect.y height width, short_side_fit, acc1.2.2)
    else acc1
  else acc1

/-- The `for rect in &self.free_rectangles` loop of
`find_position_for_new_node_best_long_side_fit`. -/
def blsf_loop (width height : Int) (rot : Bool) :
    List Rect → Rect × Int × Int → Rect × Int × Int
  | [], acc => acc
  | rect :: rest, acc =>
    blsf_loop width height rot rest (blsf_step width height rot acc rect)

/-- `MaxRectsBinPack::find_position_for_new_node_best_long_side_fit`; returns
`(best_node, best_long_side_fit, best_short_side_fit)`. -/
def find_position_for_new_node_best_long_side_fit (s : MaxRectsBinPack)
    (rot : Bool) (width height : Int) : Rect × Int × Int :=
  let acc := blsf_loop width height rot s.free_rectangles (Rect.default0, i32_max, i32_max)
  (acc.1, acc.2.2, acc.2.1)

/-- Loop body of `find_position_for_new_node_best_area_fit` for one free
rectangle: the accumulator is `(best_node, best_area_fit,
best_short_side_fit)`. -/
def baf_step (width height : Int) (rot : Bool) (acc : Rect × Int × Int)
    (rect : Rect) : Rect × Int × Int :=
  let area_fit := rect.width * rect.height - width * height
  let acc1 :=
    if rect.width ≥ width ∧ rect.height ≥ height then
      let leftover_horiz := |rect.width - width|
      let leftover_vert := |rect.height - height|
      let short_side_fit := min leftover_horiz leftover_vert
      if area_fit < acc.2.1 ∨ (area_fit = acc.2.1 ∧ short_side_fit < acc.2.2) then
        (Rect.mk rect.x rect.y width height, area_fit, short_side_fit)
      else acc
    else acc
  if rot ∧ rect.width ≥ height ∧ rect.height ≥ width then
    let leftover_horiz := |rect.width - height|
    let leftover_vert := |rect.height - width|
    let short_side_fit := min leftover_horiz leftover_vert
    if area_fit < acc1.2.1 ∨ (area_fit = acc1.2.1 ∧ short_side_fit < acc1.2.2) then
      (Rect.mk rect.x rect.y height width, area_fit, short_side_fit)
    else acc1
  else acc1

/-- The `for rect in &self.free_rectangles` loop of
`find_position_for_new_node_best_area_fit`. -/
def baf_loop (width height : Int) (rot : Bool) :
    List Rect → Rect × Int × Int → Rect × Int × Int
  | [], acc => acc
  | rect :: rest, acc =>
    baf_loop width height rot rest (baf_step width height rot acc rect)

/-- `MaxRectsBinPack::find_position_for_new_node_best_area_fit`. -/
def find_position_for_new_node_best_area_fit (s : MaxRectsBinPack)
    (rot : Bool) (width height : Int) : Rect × Int × Int :=
  baf_loop width height rot s.free_rectangles (Rect.default0, i32_max, i32_max)

/-- Loop body of `find_position_for_new_node_bottom_left` for one free
rectangle: the accumulator is `(best_node, best_y, best_x)`. -/
def bl_step (width height : Int) (rot : Bool) (acc : Rect × Int × Int)
    (rect : Rect) : Rect × Int × Int :=
  let acc1 :=
    if rect.width ≥ width ∧ rect.height ≥ height then
      let top_side_y := rect.y + height
      if top_side_y < acc.2.1 ∨ (top_side_y = acc.2.1 ∧ rect.x < acc.2.2) then
        (Rect.mk rect.x rect.y width height, top_side_y, rect.x)
      else acc
    else acc
  if rot ∧ rect.width ≥ height ∧ rect.height ≥ width then
    let top_side_y := rect.y + width
    if top_side_y < acc1.2.1 ∨ (top_side_y = acc1.2.1 ∧ rect.x < acc1.2.2) then
      (Rect.mk rect.x rect.y height width, top_side_y, rect.x)
    else acc1
  else acc1

/-- The `for rect in &self.free_rectangles` loop of
`find_position_for_new_node_bottom_left`. -/
def bl_loop (width height : Int) (rot : Bool) :
    List Rect → Rect × Int × Int → Rect × Int × Int
  | [], acc => acc
  | rect :: rest, acc =>
    bl_loop width height rot rest (bl_step width height rot acc rect)

/-- `MaxRectsBinPack::find_position_for_new_node_bottom_left`. -/
def find_position_for_new_node_bottom_left (s : MaxRectsBinPack)
    (rot : Bool) (width height : Int) : Rect × Int × Int :=
  bl_loop width height rot s.free_rectangles (Rect.default0, i32_max, i32_max)

/-- Loop body of `find_position_for_new_node_contact_point` for one free
rectangle: the accumulator is `(best_node, best_contact_score)`.  Note that
the source scores each candidate with the free rectangle's own
`width`/`height` (`contact_point_score_node(rect.x, rect.y, rect.width,
rect.height)`), not with the dimensions of the rectangle being inserted. -/
def cp_step (s : MaxRectsBinPack) (width height : Int) (rot : Bool)
    (acc : Rect × Int) (rect : Rect) : Rect × Int :=
  let acc1 :=
    if rect.width ≥ width ∧ rect.height ≥ height then
      let score := contact_point_score_node s rect.x rect.y rect.width rect.height
      if score > acc.2 then (Rect.mk rect.x rect.y width height, score)
      else acc
    else acc
  if rot ∧ rect.width ≥ height ∧ rect.height ≥ width then
    let score := contact_point_score_node s rect.x rect.y rect.height rect.width
    if score > acc1.2 then (Rect.mk rect.x rect.y height width, score)
    else acc1
  else acc1

/-- The `for rect in &self.free_rectangles` loop of
`find_position_for_new_node_contact_point`. -/
def cp_loop (s : MaxRectsBinPack) (width height : Int) (rot : Bool) :
    List Rect → Rect × Int → Rect × Int
  | [], acc => acc
  | rect :: rest, acc =>
    cp_loop s width height rot rest (cp_step s width height rot acc rect)

/-- `MaxRectsBinPack::find_position_for_new_node_contact_point`. -/
def find_position_for_new_node_contact_point (s : MaxRectsBinPack)
    (rot : Bool) (width height : Int) : Rect × Int :=
  cp_loop s width height rot s.free_rectangles (Rect.default0, -1)

/-- `MaxRectsBinPack::split_free_node(free_node, used_node)`: returns whether
the rectangles intersect, together with the residual free rectangles pushed
onto the free list (in push order: top, bottom, left, right). -/
def split_free_node (free_node used_node : Rect) : Bool × List Rect :=
  if used_node.x ≥ free_node.x + free_node.width ∨
      used_node.x + used_node.width ≤ free_node.x ∨
      used_node.y ≥ free_node.y + free_node.height ∨
      used_node.y + used_node.height ≤ free_node.y then
    (false, [])
  else
    let horiz :=
      if used_node.x < free_node.x + free_node.width ∧
          used_node.x + used_node.width > free_node.x then
        (if used_node.y > free_node.y ∧ used_node.y < free_node.y + free_node.height then
          [{ free_node with height := used_node.y - free_node.y }] else []) ++
        (if used_node.y + used_node.height < free_node.y + free_node.height then
          [{ free_node with
              y := used_node.y + used_node.height,
              height := free_node.y + free_node.height - (used_node.y + used_node.height) }]
         else [])
      else []
    let vert :=
      if used_node.y < free_node.y + free_node.height ∧
          used_node.y + used_node.height > free_node.y then
        (if used_node.x > free_node.x ∧ used_node.x < free_node.x + free_node.width then
          [{ free_node with width := used_node.x - free_node.x }] else []) ++
        (if used_node.x + used_node.width < free_node.x + free_node.width then
          [{ free_node with
              x := used_node.x + used_node.width,
              width := free_node.x + free_node.width - (used_node.x + used_node.width) }]
         else [])
      else []
    (true, horiz ++ vert)

/-- The `while i < num_rectangles_to_process` loop of
`MaxRectsBinPack::place_rect`: every original free rectangle is tested
against `node`; intersecting ones are removed and replaced by their residual
pieces, which the source pushes past the processed range.  The resulting
vector is the surviving originals (in order) followed by all pieces (in
generation order); this function returns that pair. -/
def split_all (node : Rect) : List Rect → List Rect × List Rect
  | [] => ([], [])
  | r :: rest =>
    let res := split_free_node r node
    let tail := split_all node rest
    if res.1 then (tail.1, res.2 ++ tail.2) else (r :: tail.1, tail.2)

/-- The inner `while j < self.free_rectangles.len()` loop of
`MaxRectsBinPack::prune_free_list`, at outer index `i` and inner index `j`,
written with an explicit fuel argument that carries the loop's termination
measure `len + 1 - j` (each iteration either removes one element keeping `j`,
or increments `j`, so the measure decreases by exactly one).  Removing
element `j` keeps `j` (via `j -= 1; j += 1`); removing element `i` breaks
out, reporting `true` in the second component. -/
def prune_inner_go : Nat → List Rect → Nat → Nat → List Rect × Bool
  | 0, node_list, _, _ => (node_list, false)
  | fuel + 1, node_list, i, j =>
    match node_list[j]? with
    | none => (node_list, false)
    | some b =>
      match node_list[i]? with
      | none => (node_list, false)
      | some a =>
        if a.is_contained_in b then (node_list.eraseIdx i, true)
        else if b.is_contained_in a then
          prune_inner_go fuel (node_list.eraseIdx j) i j
        else prune_inner_go fuel node_list i (j + 1)

/-- The inner pruning loop started with its exact termination measure as
fuel; the fuel-free interface used by `prune_outer`. -/
def prune_inner (node_list : List Rect) (i j : Nat) : List Rect × Bool :=
  prune_inner_go (node_list.length + 1 - j) node_list i j

theorem prune_inner_none (l : List Rect) (i j : Nat) (hj : l[j]? = none) :
    prune_inner l i j = (l, false) := by
  unfold prune_inner
  cases hf : l.length + 1 - j with
  | zero => rfl
  | succ fuel => simp [prune_inner_go, hj]

theorem prune_inner_none_i (l : List Rect) (i j : Nat) (b : Rect)
    (hj : l[j]? = some b) (hi : l[i]? = none) : prune_inner l i j = (l, false) := by
  have hjl : j < l.length := by
    rcases List.getElem?_eq_some.1 hj with ⟨h, _⟩; exact h
  have hf : l.length + 1 - j = (l.length - j) + 1 := by omega
  unfold prune_inner
  rw [hf]
  simp [prune_inner_go, hj, hi]

theorem prune_inner_rem_i (l : List Rect) (i j : Nat) (a b : Rect)
    (hj : l[j]? = some b) (hi : l[i]? = some a) (hc : a.is_contained_in b) :
    prune_inner l i j = (l.eraseIdx i, true) := by
  have hjl : j < l.length := by
    rcases List.getElem?_eq_some.1 hj with ⟨h, _⟩; exact h
  have hf : l.length + 1 - j = (l.length - j) + 1 := by omega
  unfold prune_inner
  rw [hf]
  simp [prune_inner_go, hj, hi, hc]

theorem prune_inner_rem_j (l : List Rect) (i j : Nat) (a b : Rect)
    (hj : l[j]? = some b) (hi : l[i]? = some a) (hc : ¬ a.is_contained_in b)
    (hc' : b.is_contained_in a) :
    prune_inner l i j = prune_inner (l.eraseIdx j) i j := by
  have hjl : j < l.length := by
    rcases List.getElem?_eq_some.1 hj with ⟨h, _⟩; exact h
  have hf : l.length + 1 - j = (l.length - j) + 1 := by omega
  have hlen : (l.eraseIdx j).length = l.length - 1 := by
    rw [List.length_eraseIdx, if_pos hjl]
  have hf' : (l.eraseIdx j).length + 1 - j = l.length - j := by omega
  unfold prune_inner
  rw [hf, hf']
  simp [prune_inner_go, hj, hi, hc, hc']

theorem prune_inner_step_j (l : List Rect) (i j : Nat) (a b : Rect)
    (hj : l[j]? = some b) (hi : l[i]? = some a) (hc : ¬ a.is_contained_in b)
    (hc' : ¬ b.is_contained_in a) :
    prune_inner l i j = prune_inner l i (j + 1) := by
  have hjl : j < l.length := by
    rcases List.getElem?_eq_some.1 hj with ⟨h, _⟩; exact h
  have hf : l.length + 1 - j = (l.length - j) + 1 := by omega
  have hf' : l.length + 1 - (j + 1) = l.length - j := by omega
  unfold prune_inner
  rw [hf, hf']
  simp [prune_inner_go, hj, hi, hc, hc']

theorem prune_inner_go_length_le (fuel : Nat) : ∀ (l : List Rect) (i j : Nat),
    (prune_inner_go fuel l i j).1.length ≤ l.length := by
  induction fuel with
  | zero => intro l i j; simp [prune_inner_go]
  | succ fuel ih =>
    intro l i j
    simp only [prune_inner_go]
    cases hj : l[j]? with
    | none => simp
    | some b =>
      cases hi : l[i]? with
      | none => simp
      | some a =>
        by_cases hc : a.is_contained_in b
        · simp only [hc, if_true]
          simp [List.length_eraseIdx]
          split <;> omega
        · by_cases hc' : b.is_contained_in a
          · simp only [hc, hc', if_false, if_true]
            refine le_trans (ih _ i j) ?_
            simp [List.length_eraseIdx]
            split <;> omega
          · simp only [hc, hc', if_false]
            exact ih l i (j + 1)

theorem prune_inner_go_length_lt (fuel : Nat) : ∀ (l : List Rect) (i j : Nat),
    (prune_inner_go fuel l i j).2 = true →
    (prune_inner_go fuel l i j).1.length < l.length := by
  induction fuel with
  | zero => intro l i j h; simp [prune_inner_go] at h
  | succ fuel ih =>
    intro l i j h
    simp only [prune_inner_go] at h ⊢
    cases hj : l[j]? with
    | none => rw [hj] at h; simp at h
    | some b =>
      rw [hj] at h
      cases hi : l[i]? with
      | none => rw [hi] at h; simp at h
      | some a =>
        rw [hi] at h
        by_cases hc : a.is_contained_in b
        · have hil : i < l.length := by
            rcases List.getElem?_eq_some.1 hi with ⟨hl, _⟩; exact hl
          simp only [hc, if_true]
          simp [List.length_eraseIdx, if_pos hil]
          omega
        · have hjl : j < l.length := by
            rcases List.getElem?_eq_some.1 hj with ⟨hl, _⟩; exact hl
          by_cases hc' : b.is_contained_in a
          · simp only [hc, hc', if_false, if_true] at h ⊢
            refine lt_of_lt_of_le (ih _ i j h) ?_
            simp [List.length_eraseIdx, if_pos hjl]
          · simp only [hc, hc', if_false] at h ⊢
            exact ih l i (j + 1) h

theorem prune_inner_length_le (node_list : List Rect) (i j : Nat) :
    (prune_inner node_list i j).1.length ≤ node_list.length :=
  prune_inner_go_length_le _ node_list i j

theorem prune_inner_length_lt (node_list : List Rect) (i j : Nat)
    (h : (prune_inner node_list i j).2 = true) :
    (prune_inner node_list i j).1.length < node_list.length :=
  prune_inner_go_length_lt _ node_list i j h

/-- The outer `while i < self.free_rectangles.len()` loop of
`MaxRectsBinPack::prune_free_list`, with an explicit fuel bounding the
number of iterations by the measure `len - i`.  When the inner loop removed
element `i` (the `i -= 1; break` path followed by `i += 1`), processing
resumes at the same index, which is the release-mode behaviour also at
`i = 0` where the `usize` subtraction wraps around. -/
def prune_outer_go : Nat → List Rect → Nat → List Rect
  | 0, node_list, _ => node_list
  | fuel + 1, node_list, i =>
    if i < node_list.length then
      let r := prune_inner node_list i (i + 1)
      if r.2 then prune_outer_go fuel r.1 i
      else prune_outer_go fuel r.1 (i + 1)
    else node_list

/-- The outer pruning loop started with fuel equal to its termination
measure. -/
def prune_outer (node_list : List Rect) (i : Nat) : List Rect :=
  prune_outer_go (node_list.length - i) node_list i

theorem prune_outer_go_suff (fuel : Nat) : ∀ (fuel' : Nat) (l : List Rect) (i : Nat),
    l.length - i ≤ fuel → l.length - i ≤ fuel' →
    prune_outer_go fuel l i = prune_outer_go fuel' l i := by
  induction fuel with
  | zero =>
    intro fuel' l i h h'
    have hge : ¬ i < l.length := by omega
    cases fuel' with
    | zero => rfl
    | succ fuel' => simp [prune_outer_go, hge]
  | succ fuel ih =>
    intro fuel' l i h h'
    cases fuel' with
    | zero =>
      have hge : ¬ i < l.length := by omega
      simp [prune_outer_go, hge]
    | succ fuel' =>
      simp only [prune_outer_go]
      by_cases hil : i < l.length
      · simp only [hil, if_true]
        by_cases hrem : (prune_inner l i (i + 1)).2
        · simp only [hrem, if_true]
          have hlt := prune_inner_length_lt l i (i + 1) hrem
          exact ih fuel' _ i (by omega) (by omega)
        · simp only [hrem, if_false]
          have hle := prune_inner_length_le l i (i + 1)
          exact ih fuel' _ (i + 1) (by omega) (by omega)
      · simp [hil]

theorem prune_outer_stop (l : List Rect) (i : Nat) (h : ¬ i < l.length) :
    prune_outer l i = l := by
  unfold prune_outer
  have hf : l.length - i = 0 := by omega
  rw [hf]
  rfl

theorem prune_outer_true (l : List Rect) (i : Nat) (l' : List Rect)
    (h : i < l.length) (hr : prune_inner l i (i + 1) = (l', true)) :
    prune_outer l i = prune_outer l' i := by
  have hf : l.length - i = (l.length - i - 1) + 1 := by omega
  have hlt : l'.length < l.length := by
    have := prune_inner_length_lt l i (i + 1) (by rw [hr])
    rwa [hr] at this
  unfold prune_outer
  rw [hf]
  simp only [prune_outer_go, h, if_true, hr]
  exact prune_outer_go_suff _ _ l' i (by omega) (by omega)

theorem prune_outer_false (l : List Rect) (i : Nat) (l' : List Rect)
    (h : i < l.length) (hr : prune_inner l i (i + 1) = (l', false)) :
    prune_outer l i = prune_outer l' (i + 1) := by
  have hf : l.length - i = (l.length - i - 1) + 1 := by omega
  have hle : l'.length ≤ l.length := by
    have := prune_inner_length_le l i (i + 1)
    rwa [hr] at this
  unfold prune_outer
  rw [hf]
  simp only [prune_outer_go, h, if_true, hr]
  exact prune_outer_go_suff _ _ l' (i + 1) (by omega) (by omega)

/-- `MaxRectsBinPack::prune_free_list`, as a function on the free list. -/
def prune_free_list (node_list : List Rect) : List Rect :=
  prune_outer node_list 0

/-- Whether, while running `prune_free_list` on `node_list`, the removal
branch of the outer loop (`free_rectangles.remove(i); i -= 1`) ever executes
with `i = 0` — the situation in which the source's `usize` subtraction
`i -= 1` underflows.  Fuel as in `prune_outer_go`. -/
def prune_hits_zero_go : Nat → List Rect → Nat → Bool
  | 0, _, _ => false
  | fuel + 1, node_list, i =>
    if i < node_list.length then
      let r := prune_inner node_list i (i + 1)
      if r.2 then (i == 0) || prune_hits_zero_go fuel r.1 i
      else prune_hits_zero_go fuel r.1 (i + 1)
    else false

/-- Whether `prune_free_list` on `node_list` ever runs the removal branch at
outer index `0`. -/
def prune_hits_zero (node_list : List Rect) : Bool :=
  prune_hits_zero_go node_list.length node_list 0

/-- Structural reformulation of one pass of the inner pruning loop: the
outer element `a` is scanned against the part of the list after it.  If some
later element contains `a`, the scan stops there reporting `true` (the
elements from that point on are untouched); later elements contained in `a`
are dropped along the way. -/
def inner_scan (a : Rect) : List Rect → List Rect × Bool
  | [] => ([], false)
  | b :: t =>
    if a.is_contained_in b then (b :: t, true)
    else if b.is_contained_in a then inner_scan a t
    else (b :: (inner_scan a t).1, (inner_scan a t).2)

theorem inner_scan_sublist (a : Rect) : ∀ t : List Rect, (inner_scan a t).1.Sublist t := by
  intro t
  induction t with
  | nil => simp [inner_scan]
  | cons b t ih =>
    simp only [inner_scan]
    by_cases hc : a.is_contained_in b
    · simp [hc]
    · by_cases hc' : b.is_contained_in a
      · simp only [hc, hc', if_false, if_true]
        exact ih.trans (List.sublist_cons_self b t)
      · simp only [hc, hc', if_false]
        exact ih.cons₂ b

theorem inner_scan_no_containment (a : Rect) : ∀ t : List Rect,
    (inner_scan a t).2 = false →
    ∀ b ∈ (inner_scan a t).1, ¬ a.is_contained_in b ∧ ¬ b.is_contained_in a := by
  intro t
  induction t with
  | nil => simp [inner_scan]
  | cons b t ih =>
    intro hfalse c hc
    simp only [inner_scan] at hfalse hc
    by_cases h1 : a.is_contained_in b
    · simp [h1] at hfalse
    · by_cases h2 : b.is_contained_in a
      · simp only [h1, h2, if_false, if_true] at hfalse hc
        exact ih hfalse c hc
      · simp only [h1, h2, if_false, List.mem_cons] at hfalse hc
        rcases hc with rfl | hc
        · exact ⟨h1, h2⟩
        · exact ih hfalse c hc

/-- Structural reformulation of the whole of `prune_free_list`: the outer
loop settles the list head against the rest via `inner_scan`; when the head
is removed, processing restarts at the same position (the head of the
scanned remainder), otherwise it moves past the settled head. -/
def prune_struct : List Rect → List Rect
  | [] => []
  | a :: rest =>
    if (inner_scan a rest).2 then prune_struct (inner_scan a rest).1
    else a :: prune_struct (inner_scan a rest).1
termination_by l => l.length
decreasing_by
  all_goals
    simp only [List.length_cons]
    exact Nat.lt_succ_of_le ((inner_scan_sublist _ _).length_le)

theorem prune_struct_nil : prune_struct [] = [] := by
  rw [prune_struct.eq_def]

theorem prune_struct_cons (a : Rect) (rest : List Rect) :
    prune_struct (a :: rest) =
      if (inner_scan a rest).2 then prune_struct (inner_scan a rest).1
      else a :: prune_struct (inner_scan a rest).1 := by
  rw [prune_struct.eq_def]

theorem prune_struct_sublist_aux : ∀ (n : Nat) (l : List Rect), l.length ≤ n →
    (prune_struct l).Sublist l := by
  intro n
  induction n with
  | zero =>
    intro l h
    have hl : l = [] := List.eq_nil_of_length_eq_zero (by omega)
    subst hl
    simp [prune_struct_nil]
  | succ n ih =>
    intro l h
    cases l with
    | nil => simp [prune_struct_nil]
    | cons a rest =>
      have hlen := (inner_scan_sublist a rest).length_le
      have hr : (inner_scan a rest).1.length ≤ n := by
        simp only [List.length_cons] at h
        omega
      rw [prune_struct_cons]
      by_cases hrem : (inner_scan a rest).2
      · rw [if_pos hrem]
        exact ((ih _ hr).trans (inner_scan_sublist a rest)).trans
          (List.sublist_cons_self a rest)
      · rw [if_neg hrem]
        exact ((ih _ hr).trans (inner_scan_sublist a rest)).cons₂ a

theorem prune_struct_sublist (l : List Rect) : (prune_struct l).Sublist l :=
  prune_struct_sublist_aux l.length l (le_refl _)

theorem prune_struct_pairwise_aux : ∀ (n : Nat) (l : List Rect), l.length ≤ n →
    (prune_struct l).Pairwise
      (fun x y => ¬ x.is_contained_in y ∧ ¬ y.is_contained_in x) := by
  intro n
  induction n with
  | zero =>
    intro l h
    have hl : l = [] := List.eq_nil_of_length_eq_zero (by omega)
    subst hl
    simp [prune_struct_nil]
  | succ n ih =>
    intro l h
    cases l with
    | nil => simp [prune_struct_nil]
    | cons a rest =>
      have hlen := (inner_scan_sublist a rest).length_le
      have hr : (inner_scan a rest).1.length ≤ n := by
        simp only [List.length_cons] at h
        omega
      rw [prune_struct_cons]
      by_cases hrem : (inner_scan a rest).2
      · rw [if_pos hrem]
        exact ih _ hr
      · rw [if_neg hrem]
        refine List.Pairwise.cons ?_ (ih _ hr)
        intro y hy
        have hy' : y ∈ (inner_scan a rest).1 := (prune_struct_sublist _).mem hy
        exact inner_scan_no_containment a rest
          (Bool.not_eq_true _ ▸ eq_false_of_ne_true hrem) y hy'

theorem prune_struct_pairwise (l : List Rect) :
    (prune_struct l).Pairwise
      (fun x y => ¬ x.is_contained_in y ∧ ¬ y.is_contained_in x) :=
  prune_struct_pairwise_aux l.length l (le_refl _)

theorem getElem?_append_cons {α : Type} (P X : List α) (a : α) :
    (P ++ a :: X)[P.length]? = some a := by
  induction P with
  | nil => simp
  | cons p P ih => simpa using ih

theorem eraseIdx_append_cons {α : Type} (P X : List α) (a : α) :
    (P ++ a :: X).eraseIdx P.length = P ++ X := by
  induction P with
  | nil => simp
  | cons p P ih => simpa [List.eraseIdx] using ih

/-- One pass of the inner loop, index-based versus structural: scanning from
inner index `j = (P ++ a :: K).length` over the list `P ++ a :: (K ++ S)`
(outer element `a` at index `|P|`, already-scanned kept elements `K`,
still-to-scan suffix `S`) agrees with `inner_scan a S`. -/
theorem prune_inner_eq_scan (a : Rect) : ∀ (S K P : List Rect),
    prune_inner (P ++ a :: (K ++ S)) P.length (P ++ a :: K).length =
      (if (inner_scan a S).2 then (P ++ (K ++ (inner_scan a S).1), true)
       else (P ++ a :: (K ++ (inner_scan a S).1), false)) := by
  intro S
  induction S with
  | nil =>
    intro K P
    have hj : (P ++ a :: (K ++ ([] : List Rect)))[(P ++ a :: K).length]? = none := by
      apply List.getElem?_eq_none
      simp
    rw [prune_inner_none _ _ _ hj]
    simp [inner_scan]
  | cons b T ih =>
    intro K P
    have hasc : P ++ a :: (K ++ b :: T) = (P ++ a :: K) ++ b :: T := by
      simp
    have hj : (P ++ a :: (K ++ b :: T))[(P ++ a :: K).length]? = some b := by
      rw [hasc]
      exact getElem?_append_cons _ _ _
    have hi : (P ++ a :: (K ++ b :: T))[P.length]? = some a :=
      getElem?_append_cons _ _ _
    by_cases hca : a.is_contained_in b
    · rw [prune_inner_rem_i _ _ _ a b hj hi hca]
      have he : (P ++ a :: (K ++ b :: T)).eraseIdx P.length = P ++ (K ++ b :: T) :=
        eraseIdx_append_cons _ _ _
      rw [he]
      simp [inner_scan, hca]
    · by_cases hcb : b.is_contained_in a
      · rw [prune_inner_rem_j _ _ _ a b hj hi hca hcb]
        have he : (P ++ a :: (K ++ b :: T)).eraseIdx (P ++ a :: K).length =
            P ++ a :: (K ++ T) := by
          rw [hasc, eraseIdx_append_cons]
          simp
        rw [he, ih K P]
        simp [inner_scan, hca, hcb]
      · rw [prune_inner_step_j _ _ _ a b hj hi hca hcb]
        have hlist : P ++ a :: (K ++ b :: T) = P ++ a :: ((K ++ [b]) ++ T) := by
          simp
        have hlen : (P ++ a :: K).length + 1 = (P ++ a :: (K ++ [b])).length := by
          simp
          omega
        rw [hlist, hlen, ih (K ++ [b]) P]
        simp [inner_scan, hca, hcb]

/-- The outer loop, index-based versus structural: running `prune_outer`
from index `|P|` on `P ++ S` leaves the settled prefix `P` alone and prunes
`S` structurally. -/
theorem prune_outer_eq_struct : ∀ (n : Nat) (S P : List Rect), S.length ≤ n →
    prune_outer (P ++ S) P.length = P ++ prune_struct S := by
  intro n
  induction n with
  | zero =>
    intro S P h
    have hS : S = [] := List.eq_nil_of_length_eq_zero (by omega)
    subst hS
    rw [prune_outer_stop]
    · simp [prune_struct_nil]
    · simp
  | succ n ih =>
    intro S P h
    cases S with
    | nil =>
      rw [prune_outer_stop]
      · simp [prune_struct_nil]
      · simp
    | cons a T =>
      have hlt : P.length < (P ++ a :: T).length := by simp
      have hin := prune_inner_eq_scan a T [] P
      simp only [List.nil_append, List.append_nil] at hin
      have hlen1 : (P ++ a :: ([] : List Rect)).length = P.length + 1 := by simp
      rw [hlen1] at hin
      have hTlen : (inner_scan a T).1.length ≤ T.length :=
        (inner_scan_sublist a T).length_le
      have hTn : T.length ≤ n := by
        simp only [List.length_cons] at h
        omega
      rw [prune_struct_cons]
      by_cases hrem : (inner_scan a T).2
      · rw [if_pos hrem] at hin
        rw [prune_outer_true _ _ _ hlt hin, ih (inner_scan a T).1 P (by omega),
          if_pos hrem]
      · rw [if_neg hrem] at hin
        rw [prune_outer_false _ _ _ hlt hin, if_neg hrem]
        have hs := ih (inner_scan a T).1 (P ++ [a]) (by omega)
        have hl2 : (P ++ [a]).length = P.length + 1 := by simp
        rw [hl2] at hs
        have ha : P ++ [a] ++ (inner_scan a T).1 = P ++ a :: (inner_scan a T).1 := by
          simp
        have ha2 : P ++ [a] ++ prune_struct (inner_scan a T).1 =
            P ++ a :: prune_struct (inner_scan a T).1 := by
          simp
        rw [ha, ha2] at hs
        exact hs

/-- `prune_free_list` agrees with the structural reformulation. -/
theorem prune_free_list_eq_struct (l : List Rect) :
    prune_free_list l = prune_struct l := by
  have := prune_outer_eq_struct l.length l [] (le_refl _)
  simpa [prune_free_list, prune_outer] using this

/-- After pruning, no free rectangle is contained in another. -/
theorem prune_free_list_pairwise (l : List Rect) :
    (prune_free_list l).Pairwise
      (fun x y => ¬ x.is_contained_in y ∧ ¬ y.is_contained_in x) := by
  rw [prune_free_list_eq_struct]
  exact prune_struct_pairwise l

/-- Pruning only removes rectangles. -/
theorem prune_free_list_sublist (l : List Rect) : (prune_free_list l).Sublist l := by
  rw [prune_free_list_eq_struct]
  exact prune_struct_sublist l

/-- `MaxRectsBinPack::place_rect(node)`. -/
def MaxRectsBinPack.place_rect (s : MaxRectsBinPack) (node : Rect) : MaxRectsBinPack :=
  let split := split_all node s.free_rectangles
  { s with
    free_rectangles := prune_free_list (split.1 ++ split.2),
    used_rectangles := s.used_rectangles ++ [node] }

/-- `MaxRectsBinPack::insert(width, height, rot, method)`: returns the
placement rectangle (the null sentinel has `height == 0`) together with the
updated state. -/
def MaxRectsBinPack.insert (s : MaxRectsBinPack) (width height : Int) (rot : Bool)
    (method : FreeRectChoiceHeuristic) : Rect × MaxRectsBinPack :=
  let new_node : Rect :=
    match method with
    | .RectBestShortSideFit =>
      (find_position_for_new_node_best_short_side_fit s rot width height).1
    | .RectBottomLeftRule =>
      (find_position_for_new_node_bottom_left s rot width height).1
    | .RectContactPointRule =>
      (find_position_for_new_node_contact_point s rot width height).1
    | .RectBestLongSideFit =>
      (find_position_for_new_node_best_long_side_fit s rot width height).1
    | .RectBestAreaFit =>
      (find_position_for_new_node_best_area_fit s rot width height).1
  if new_node.height = 0 then (new_node, s)
  else (new_node, s.place_rect new_node)

/-- States of a `MaxRectsBinPack` reachable from `MaxRectsBinPack::new w h`
by a sequence of `insert` calls with positive item dimensions (calls whose
insertion fails leave the state unchanged). -/
inductive Reachable (w h : Int) : MaxRectsBinPack → Prop where
  | init : Reachable w h (MaxRectsBinPack.new w h)
  | step (s : MaxRectsBinPack) (iw ih : Int) (rot : Bool)
      (method : FreeRectChoiceHeuristic) :
      Reachable w h s → 0 < iw → 0 < ih →
      Reachable w h (s.insert iw ih rot method).2

/-- `Point` from `src/packer.rs`. -/
structure Point where
  x : Int
  y : Int
  dup_id : Int
  rot : Bool
  deriving DecidableEq, Repr

/-- Fallback `Point` used to model the (in-bounds by invariant) vector
indexing `self.points[idx]`. -/
def Point.dummy : Point := ⟨0, 0, 0, false⟩

/-- The fields of `ImageWrapper` (`src/image_wrapper.rs`) that the packer
consumes: post-trim dimensions, pixel bytes and the 64-bit fingerprint. -/
structure ImageWrapper where
  name : String
  width : Int
  height : Int
  data : List Nat
  hash_value : Nat
  deriving DecidableEq, Repr

/-- Fallback `ImageWrapper` used to model the vector indexing
`self.images[idx]`. -/
def ImageWrapper.dummy : ImageWrapper := ⟨"", 0, 0, [], 0⟩

/-- `impl PartialEq for ImageWrapper` (`src/image_wrapper.rs`): equal
dimensions and equal pixel data. -/
def image_eq (a b : ImageWrapper) : Prop :=
  a.width = b.width ∧ a.height = b.height ∧ a.data = b.data

instance (a b : ImageWrapper) : Decidable (image_eq a b) := by
  unfold image_eq; infer_instance

/-- `Packer` from `src/packer.rs`.  The `MetroHashMap<u64, usize>` duplicate
lookup is modelled as an association list whose insert prepends (so a lookup
finds the most recently inserted binding, as a hash-map overwrite does). -/
structure Packer where
  width : Int
  height : Int
  pad : Int
  images : List ImageWrapper
  points : List Point
  dup_lookup : List (Nat × Nat)
  deriving DecidableEq, Repr

/-- `Packer::new(width, height, pad)`. -/
def Packer.new (width height pad : Int) : Packer :=
  ⟨width, height, pad, [], [], []⟩

/-- The `while !images.is_empty()` loop of `Packer::pack`, written on the
reversed queue: `images.pop()` takes the last element of the `Vec`, so the
loop consumes the head of the reversed list, and `images.push(image)` on the
break path puts the image back at the same end (the head of the reversed
list).  Returns the updated packer, bin state, tight bounds `ww`/`hh`, and
the remaining reversed queue. -/
def pack_go (unique rotate : Bool) (method : FreeRectChoiceHeuristic) :
    Packer → MaxRectsBinPack → Int → Int → List ImageWrapper →
      Packer × MaxRectsBinPack × Int × Int × List ImageWrapper
  | p, bin, ww, hh, [] => (p, bin, ww, hh, [])
  | p, bin, ww, hh, image :: rest =>
    let dup : Option Nat :=
      if unique then
        match List.lookup image.hash_value p.dup_lookup with
        | some idx =>
          if image_eq image (p.images.getD idx ImageWrapper.dummy) then some idx
          else none
        | none => none
      else none
    match dup with
    | some idx =>
      let p0 := p.points.getD idx Point.dummy
      pack_go unique rotate method
        { p with
          points := p.points ++ [{ p0 with dup_id := (idx : Int) }],
          images := p.images ++ [image] }
        bin ww hh rest
    | none =>
      let ins := bin.insert (image.width + p.pad) (image.height + p.pad) rotate method
      if ins.1.width = 0 ∨ ins.1.height = 0 then
        (p, ins.2, ww, hh, image :: rest)
      else
        pack_go unique rotate method
          { p with
            dup_lookup :=
              if unique then (image.hash_value, p.points.length) :: p.dup_lookup
              else p.dup_lookup,
            points := p.points ++
              [⟨ins.1.x, ins.1.y, -1,
                rotate ∧ image.width ≠ ins.1.width - p.pad⟩],
            images := p.images ++ [image] }
          ins.2 (max (ins.1.x + ins.1.width) ww) (max (ins.1.y + ins.1.height) hh)
          rest

/-- The consuming loop of `Packer::pack` on the queue in `Vec` order (the
element popped first is the last of the list); the leftover queue is
returned in `Vec` order as well. -/
def pack_loop (unique rotate : Bool) (method : FreeRectChoiceHeuristic)
    (p : Packer) (bin : MaxRectsBinPack) (ww hh : Int)
    (queue : List ImageWrapper) :
    Packer × MaxRectsBinPack × Int × Int × List ImageWrapper :=
  let r := pack_go unique rotate method p bin ww hh queue.reverse
  (r.1, r.2.1, r.2.2.1, r.2.2.2.1, r.2.2.2.2.reverse)

/-- One of the two halving loops closing `Packer::pack`
(`while self.width / 2 >= ww { self.width /= 2 }`), with a fuel bound on the
number of iterations: `none` means the loop has not finished within `fuel`
iterations.  Rust's `i32` division truncates toward zero (`Int.tdiv`). -/
def shrink_loop : Nat → Int → Int → Option Int
  | fuel, w, ww =>
    if Int.tdiv w 2 ≥ ww then
      match fuel with
      | 0 => none
      | fuel + 1 => shrink_loop fuel (Int.tdiv w 2) ww
    else some w

/-- `Packer::pack(images, unique, rotate, method)`: consumes the queue,
then shrinks the reported bin dimensions by the two halving loops.  The
halving loops are given a fuel bound; `none` means `pack` has not returned
within that many halving iterations. -/
def Packer.pack (p : Packer) (images : List ImageWrapper)
    (unique rotate : Bool) (method : FreeRectChoiceHeuristic) (fuel : Nat) :
    Option (Packer × List ImageWrapper) :=
  let bin := MaxRectsBinPack.new p.width p.height
  let r := pack_loop unique rotate method p bin 0 0 images
  match shrink_loop fuel r.1.width r.2.2.1 with
  | none => none
  | some w' =>
    match shrink_loop fuel r.1.height r.2.2.2.1 with
    | none => none
    | some h' => some ({ r.1 with width := w', height := h' }, r.2.2.2.2)

/-! ### Geometric helper lemmas -/

/-- A rectangle with positive dimensions lying inside the `w × h` bin. -/
def rect_in_bin (w h : Int) (r : Rect) : Prop :=
  0 < r.width ∧ 0 < r.height ∧ 0 ≤ r.x ∧ 0 ≤ r.y ∧
    r.x + r.width ≤ w ∧ r.y + r.height ≤ h

instance (w h : Int) (r : Rect) : Decidable (rect_in_bin w h r) := by
  unfold rect_in_bin; infer_instance

/-- The fit test used by all position searches: the item fits the free
rectangle upright, or (when rotation is allowed) rotated. -/
def fits_either (rot : Bool) (f : Rect) (width height : Int) : Prop :=
  (f.width ≥ width ∧ f.height ≥ height) ∨
    (rot = true ∧ f.width ≥ height ∧ f.height ≥ width)

instance (rot : Bool) (f : Rect) (width height : Int) :
    Decidable (fits_either rot f width height) := by
  unfold fits_either; infer_instance

theorem is_contained_in_trans {a b c : Rect} (h1 : a.is_contained_in b)
    (h2 : b.is_contained_in c) : a.is_contained_in c := by
  unfold Rect.is_contained_in at *
  omega

theorem rect_disjoint_symm {a b : Rect} (h : rect_disjoint a b) : rect_disjoint b a := by
  unfold rect_disjoint at *
  omega

theorem rect_disjoint_of_contained {a b u : Rect} (h1 : a.is_contained_in b)
    (h2 : rect_disjoint b u) : rect_disjoint a u := by
  unfold Rect.is_contained_in rect_disjoint at *
  omega

theorem rect_in_bin_of_contained {w h : Int} {a b : Rect} (h1 : a.is_contained_in b)
    (h2 : rect_in_bin w h b) (h3 : 0 < a.width) (h4 : 0 < a.height) :
    rect_in_bin w h a := by
  unfold Rect.is_contained_in rect_in_bin at *
  omega

/-! ### Lemmas about `split_free_node` and the splitting loop -/

/-- `split_free_node` reports no intersection exactly when the rectangles
are disjoint in the sense of `src/rect.rs`. -/
theorem split_free_node_false_iff (f u : Rect) :
    (split_free_node f u).1 = false ↔ rect_disjoint f u := by
  unfold split_free_node
  by_cases hc : (u.x ≥ f.x + f.width ∨ u.x + u.width ≤ f.x ∨
      u.y ≥ f.y + f.height ∨ u.y + u.height ≤ f.y)
  · rw [if_pos hc]
    unfold rect_disjoint
    constructor
    · intro _
      omega
    · intro _
      rfl
  · rw [if_neg hc]
    constructor
    · intro hfalse
      exact absurd hfalse (by simp)
    · intro hd
      exfalso
      unfold rect_disjoint at hd
      omega

/-- Every residual produced by `split_free_node` is contained in the split
free rectangle, is disjoint from the used node, and inherits positive
dimensions from the parent. -/
theorem split_free_node_pieces (f u : Rect) :
    ∀ p ∈ (split_free_node f u).2,
      p.is_contained_in f ∧ rect_disjoint p u ∧
        (0 < f.width → 0 < f.height → 0 < p.width ∧ 0 < p.height) := by
  intro p hp
  unfold split_free_node at hp
  by_cases hc : (u.x ≥ f.x + f.width ∨ u.x + u.width ≤ f.x ∨
      u.y ≥ f.y + f.height ∨ u.y + u.height ≤ f.y)
  · rw [if_pos hc] at hp
    simp at hp
  · rw [if_neg hc] at hp
    push_neg at hc
    obtain ⟨h1, h2, h3, h4⟩ := hc
    simp only at hp
    rcases List.mem_append.1 hp with hp | hp
    · by_cases hx : u.x < f.x + f.width ∧ u.x + u.width > f.x
      · rw [if_pos hx] at hp
        rcases List.mem_append.1 hp with hp | hp
        · by_cases ht : u.y > f.y ∧ u.y < f.y + f.height
          · rw [if_pos ht] at hp
            simp only [List.mem_singleton] at hp
            subst hp
            refine ⟨?_, ?_, fun hfw hfh => ?_⟩ <;>
              simp only [Rect.is_contained_in, rect_disjoint] <;> omega
          · rw [if_neg ht] at hp
            simp at hp
        · by_cases hb : u.y + u.height < f.y + f.height
          · rw [if_pos hb] at hp
            simp only [List.mem_singleton] at hp
            subst hp
            refine ⟨?_, ?_, fun hfw hfh => ?_⟩ <;>
              simp only [Rect.is_contained_in, rect_disjoint] <;> omega
          · rw [if_neg hb] at hp
            simp at hp
      · rw [if_neg hx] at hp
        simp at hp
    · by_cases hy : u.y < f.y + f.height ∧ u.y + u.height > f.y
      · rw [if_pos hy] at hp
        rcases List.mem_append.1 hp with hp | hp
        · by_cases hl : u.x > f.x ∧ u.x < f.x + f.width
          · rw [if_pos hl] at hp
            simp only [List.mem_singleton] at hp
            subst hp
            refine ⟨?_, ?_, fun hfw hfh => ?_⟩ <;>
              simp only [Rect.is_contained_in, rect_disjoint] <;> omega
          · rw [if_neg hl] at hp
            simp at hp
        · by_cases hr : u.x + u.width < f.x + f.width
          · rw [if_pos hr] at hp
            simp only [List.mem_singleton] at hp
            subst hp
            refine ⟨?_, ?_, fun hfw hfh => ?_⟩ <;>
              simp only [Rect.is_contained_in, rect_disjoint] <;> omega
          · rw [if_neg hr] at hp
            simp at hp
      · rw [if_neg hy] at hp
        simp at hp

/-! ### Position-search lemmas -/

/-- The shape of any node accepted by a position search: the bottom-left
corner of a fitting free rectangle, in one of the two orientations. -/
def node_candidate (rot : Bool) (width height : Int) (l : List Rect) (n : Rect) : Prop :=
  ∃ f ∈ l, (f.width ≥ width ∧ f.height ≥ height ∧ n = Rect.mk f.x f.y width height) ∨
    (rot = true ∧ f.width ≥ height ∧ f.height ≥ width ∧ n = Rect.mk f.x f.y height width)

theorem node_candidate_cons {rot : Bool} {width height : Int} {r : Rect}
    {l : List Rect} {n : Rect} (h : node_candidate rot width height l n) :
    node_candidate rot width height (r :: l) n := by
  obtain ⟨f, hf, hor⟩ := h
  exact ⟨f, List.mem_cons_of_mem r hf, hor⟩

theorem bssf_step_shape (width height : Int) (rot : Bool) (acc : Rect × Int × Int)
    (r : Rect) :
    bssf_step width height rot acc r = acc ∨
      (r.width ≥ width ∧ r.height ≥ height ∧
        (bssf_step width height rot acc r).1 = Rect.mk r.x r.y width height) ∨
      (rot = true ∧ r.width ≥ height ∧ r.height ≥ width ∧
        (bssf_step width height rot acc r).1 = Rect.mk r.x r.y height width) := by
  unfold bssf_step
  by_cases hc1 : r.width ≥ width ∧ r.height ≥ height
  · rw [if_pos hc1]
    by_cases hd1 : min |r.width - width| |r.height - height| < acc.2.1 ∨
        (min |r.width - width| |r.height - height| = acc.2.1 ∧
          max |r.width - width| |r.height - height| < acc.2.2)
    · rw [if_pos hd1]
      dsimp only
      by_cases hc2 : rot = true ∧ r.width ≥ height ∧ r.height ≥ width
      · rw [if_pos hc2]
        by_cases hd2 : min |r.width - height| |r.height - width| <
              min |r.width - width| |r.height - height| ∨
            (min |r.width - height| |r.height - width| =
                min |r.width - width| |r.height - height| ∧
              max |r.width - height| |r.height - width| < acc.2.2)
        · rw [if_pos hd2]
          exact Or.inr (Or.inr ⟨hc2.1, hc2.2.1, hc2.2.2, rfl⟩)
        · rw [if_neg hd2]
          exact Or.inr (Or.inl ⟨hc1.1, hc1.2, rfl⟩)
      · rw [if_neg hc2]
        exact Or.inr (Or.inl ⟨hc1.1, hc1.2, rfl⟩)
    · rw [if_neg hd1]
      by_cases hc2 : rot = true ∧ r.width ≥ height ∧ r.height ≥ width
      · rw [if_pos hc2]
        by_cases hd2 : min |r.width - height| |r.height - width| < acc.2.1 ∨
            (min |r.width - height| |r.height - width| = acc.2.1 ∧
              max |r.width - height| |r.height - width| < acc.2.2)
        · rw [if_pos hd2]
          exact Or.inr (Or.inr ⟨hc2.1, hc2.2.1, hc2.2.2, rfl⟩)
        · rw [if_neg hd2]
          exact Or.inl rfl
      · rw [if_neg hc2]
        exact Or.inl rfl
  · rw [if_neg hc1]
    by_cases hc2 : rot = true ∧ r.width ≥ height ∧ r.height ≥ width
    · rw [if_pos hc2]
      by_cases hd2 : min |r.width - height| |r.height - width| < acc.2.1 ∨
          (min |r.width - height| |r.height - width| = acc.2.1 ∧
            max |r.width - height| |r.height - width| < acc.2.2)
      · rw [if_pos hd2]
        exact Or.inr (Or.inr ⟨hc2.1, hc2.2.1, hc2.2.2, rfl⟩)
      · rw [if_neg hd2]
        exact Or.inl rfl
    · rw [if_neg hc2]
      exact Or.inl rfl

theorem bssf_step_nofit (width height : Int) (rot : Bool) (acc : Rect × Int × Int)
    (r : Rect) (hnf : ¬ fits_either rot r width height) :
    bssf_step width height rot acc r = acc := by
  have h1 : ¬ (r.width ≥ width ∧ r.height ≥ height) :=
    fun hcontra => hnf (Or.inl hcontra)
  have h2 : ¬ (rot = true ∧ r.width ≥ height ∧ r.height ≥ width) :=
    fun hcontra => hnf (Or.inr hcontra)
  unfold bssf_step
  rw [if_neg h1, if_neg h2]

theorem bssf_step_preserve (width height : Int) (rot : Bool) (acc : Rect × Int × Int)
    (r : Rect) (hw : width ≠ 0) (hh : height ≠ 0) (ha : acc.1.height ≠ 0) :
    (bssf_step width height rot acc r).1.height ≠ 0 := by
  rcases bssf_step_shape width height rot acc r with hs | ⟨_, _, hs⟩ | ⟨_, _, _, hs⟩
  · rw [hs]; exact ha
  · rw [hs]; exact hh
  · rw [hs]; exact hw

theorem bssf_step_inv (width height : Int) (rot : Bool) (acc : Rect × Int × Int)
    (r : Rect) (hw : width ≠ 0) (hh : height ≠ 0)
    (hinv : acc.2.1 = i32_max ∨ acc.1.height ≠ 0) :
    (bssf_step width height rot acc r).2.1 = i32_max ∨
      (bssf_step width height rot acc r).1.height ≠ 0 := by
  rcases bssf_step_shape width height rot acc r with hs | ⟨_, _, hs⟩ | ⟨_, _, _, hs⟩
  · rw [hs]; exact hinv
  · right; rw [hs]; exact hh
  · right; rw [hs]; exact hw

theorem bssf_step_fit (width height : Int) (rot : Bool) (acc : Rect × Int × Int)
    (r : Rect) (W H : Int)
    (hw : 0 < width) (hh : 0 < height) (hbw : r.width ≤ W) (hbh : r.height ≤ H)
    (hW : W ≤ i32_max) (hH : H ≤ i32_max) (h21 : acc.2.1 = i32_max)
    (hfit : fits_either rot r width height) :
    (bssf_step width height rot acc r).1.height ≠ 0 := by
  have hup : (r.width ≥ width ∧ r.height ≥ height) →
      min |r.width - width| |r.height - height| < acc.2.1 := by
    rintro ⟨hfw, hfh⟩
    rw [h21]
    have habs : |r.width - width| = r.width - width := abs_of_nonneg (by omega)
    calc min |r.width - width| |r.height - height| ≤ |r.width - width| :=
          min_le_left _ _
      _ < i32_max := by rw [habs]; unfold i32_max at *; omega
  have hrotc : (r.width ≥ height ∧ r.height ≥ width) →
      min |r.width - height| |r.height - width| < acc.2.1 := by
    rintro ⟨hfw, hfh⟩
    rw [h21]
    have habs : |r.width - height| = r.width - height := abs_of_nonneg (by omega)
    calc min |r.width - height| |r.height - width| ≤ |r.width - height| :=
          min_le_left _ _
      _ < i32_max := by rw [habs]; unfold i32_max at *; omega
  unfold bssf_step
  by_cases hc1 : r.width ≥ width ∧ r.height ≥ height
  · rw [if_pos hc1, if_pos (Or.inl (hup hc1))]
    dsimp only
    split_ifs <;> dsimp only <;> omega
  · rcases hfit with hupfit | ⟨hrot, hfw, hfh⟩
    · exact absurd hupfit hc1
    · rw [if_neg hc1, if_pos ⟨hrot, hfw, hfh⟩, if_pos (Or.inl (hrotc ⟨hfw, hfh⟩))]
      dsimp only
      omega

theorem bssf_loop_nofit (width height : Int) (rot : Bool) :
    ∀ (l : List Rect) (acc : Rect × Int × Int),
      (∀ f ∈ l, ¬ fits_either rot f width height) →
      bssf_loop width height rot l acc = acc := by
  intro l
  induction l with
  | nil => intro acc _; rfl
  | cons r rest ih =>
    intro acc hnf
    simp only [bssf_loop]
    rw [bssf_step_nofit width height rot acc r (hnf r (List.mem_cons_self _ _))]
    exact ih acc fun f hf => hnf f (List.mem_cons_of_mem r hf)

theorem bssf_loop_shape (width height : Int) (rot : Bool) :
    ∀ (l : List Rect) (acc : Rect × Int × Int),
      (bssf_loop width height rot l acc).1 = acc.1 ∨
        node_candidate rot width height l (bssf_loop width height rot l acc).1 := by
  intro l
  induction l with
  | nil => intro acc; left; rfl
  | cons r rest ih =>
    intro acc
    simp only [bssf_loop]
    rcases ih (bssf_step width height rot acc r) with hrec | hrec
    · rw [hrec]
      rcases bssf_step_shape width height rot acc r with hs | ⟨h1, h2, hs⟩ | ⟨h1, h2, h3, hs⟩
      · rw [hs]
        exact Or.inl rfl
      · exact Or.inr ⟨r, List.mem_cons_self _ _, Or.inl ⟨h1, h2, hs⟩⟩
      · exact Or.inr ⟨r, List.mem_cons_self _ _, Or.inr ⟨h1, h2, h3, hs⟩⟩
    · exact Or.inr (node_candidate_cons hrec)

theorem bssf_loop_nonzero (width height : Int) (rot : Bool) (W H : Int)
    (hw : 0 < width) (hh : 0 < height) (hW : W ≤ i32_max) (hH : H ≤ i32_max) :
    ∀ (l : List Rect) (acc : Rect × Int × Int),
      (∀ f ∈ l, f.width ≤ W ∧ f.height ≤ H) →
      (acc.2.1 = i32_max ∨ acc.1.height ≠ 0) →
      ((∃ f ∈ l, fits_either rot f width height) ∨ acc.1.height ≠ 0) →
      (bssf_loop width height rot l acc).1.height ≠ 0 := by
  intro l
  induction l with
  | nil =>
    intro acc _ _ hex
    rcases hex with ⟨f, hf, _⟩ | hnz
    · exact absurd hf (List.not_mem_nil f)
    · exact hnz
  | cons r rest ih =>
    intro acc hb hinv hex
    simp only [bssf_loop]
    have hb' : ∀ f ∈ rest, f.width ≤ W ∧ f.height ≤ H :=
      fun f hf => hb f (List.mem_cons_of_mem r hf)
    refine ih (bssf_step width height rot acc r) hb'
      (bssf_step_inv width height rot acc r (by omega) (by omega) hinv) ?_
    rcases hex with ⟨f, hf, hfit⟩ | hnz
    · rcases List.mem_cons.1 hf with heq | hf2
      · subst heq
        right
        rcases hinv with h21 | hnz
        · exact bssf_step_fit width height rot acc f W H hw hh
            (hb f (List.mem_cons_self f rest)).1
            (hb f (List.mem_cons_self f rest)).2 hW hH h21 hfit
        · exact bssf_step_preserve width height rot acc f (by omega) (by omega) hnz
      · exact Or.inl ⟨f, hf2, hfit⟩
    · exact Or.inr (bssf_step_preserve width height rot acc r (by omega) (by omega) hnz)

theorem bssf_step_snd (width height : Int) (rot : Bool) (acc : Rect × Int × Int)
    (r : Rect) : (bssf_step width height rot acc r).2.2 = acc.2.2 := by
  unfold bssf_step
  by_cases hc1 : r.width ≥ width ∧ r.height ≥ height
  · rw [if_pos hc1]
    by_cases hd1 : min |r.width - width| |r.height - height| < acc.2.1 ∨
        (min |r.width - width| |r.height - height| = acc.2.1 ∧
          max |r.width - width| |r.height - height| < acc.2.2)
    · rw [if_pos hd1]
      dsimp only
      split_ifs <;> rfl
    · rw [if_neg hd1]
      dsimp only
      split_ifs <;> rfl
  · rw [if_neg hc1]
    dsimp only
    split_ifs <;> rfl

theorem bssf_loop_snd (width height : Int) (rot : Bool) :
    ∀ (l : List Rect) (acc : Rect × Int × Int),
      (bssf_loop width height rot l acc).2.2 = acc.2.2 := by
  intro l
  induction l with
  | nil => intro acc; rfl
  | cons r rest ih =>
    intro acc
    simp only [bssf_loop]
    rw [ih (bssf_step width height rot acc r), bssf_step_snd]

theorem blsf_step_shape (width height : Int) (rot : Bool) (acc : Rect × Int × Int)
    (r : Rect) :
    blsf_step width height rot acc r = acc ∨
      (r.width ≥ width ∧ r.height ≥ height ∧
        (blsf_step width height rot acc r).1 = Rect.mk r.x r.y width height) ∨
      (rot = true ∧ r.width ≥ height ∧ r.height ≥ width ∧
        (blsf_step width height rot acc r).1 = Rect.mk r.x r.y height width) := by
  unfold blsf_step
  by_cases hc1 : r.width ≥ width ∧ r.height ≥ height
  · rw [if_pos hc1]
    by_cases hd1 : max |r.width - width| |r.height - height| < acc.2.2 ∨
        (max |r.width - width| |r.height - height| = acc.2.2 ∧
          min |r.width - width| |r.height - height| < acc.2.1)
    · rw [if_pos hd1]
      dsimp only
      by_cases hc2 : rot = true ∧ r.width ≥ height ∧ r.height ≥ width
      · rw [if_pos hc2]
        by_cases hd2 : max |r.width - height| |r.height - width| < acc.2.2 ∨
            (max |r.width - height| |r.height - width| = acc.2.2 ∧
              min |r.width - height| |r.height - width| <
                min |r.width - width| |r.height - height|)
        · rw [if_pos hd2]
          exact Or.inr (Or.inr ⟨hc2.1, hc2.2.1, hc2.2.2, rfl⟩)
        · rw [if_neg hd2]
          exact Or.inr (Or.inl ⟨hc1.1, hc1.2, rfl⟩)
      · rw [if_neg hc2]
        exact Or.inr (Or.inl ⟨hc1.1, hc1.2, rfl⟩)
    · rw [if_neg hd1]
      by_cases hc2 : rot = true ∧ r.width ≥ height ∧ r.height ≥ width
      · rw [if_pos hc2]
        by_cases hd2 : max |r.width - height| |r.height - width| < acc.2.2 ∨
            (max |r.width - height| |r.height - width| = acc.2.2 ∧
              min |r.width - height| |r.height - width| < acc.2.1)
        · rw [if_pos hd2]
          exact Or.inr (Or.inr ⟨hc2.1, hc2.2.1, hc2.2.2, rfl⟩)
        · rw [if_neg hd2]
          exact Or.inl rfl
      · rw [if_neg hc2]
        exact Or.inl rfl
  · rw [if_neg hc1]
    by_cases hc2 : rot = true ∧ r.width ≥ height ∧ r.height ≥ width
    · rw [if_pos hc2]
      by_cases hd2 : max |r.width - height| |r.height - width| < acc.2.2 ∨
          (max |r.width - height| |r.height - width| = acc.2.2 ∧
            min |r.width - height| |r.height - width| < acc.2.1)
      · rw [if_pos hd2]
        exact Or.inr (Or.inr ⟨hc2.1, hc2.2.1, hc2.2.2, rfl⟩)
      · rw [if_neg hd2]
        exact Or.inl rfl
    · rw [if_neg hc2]
      exact Or.inl rfl

theorem blsf_step_snd (width height : Int) (rot : Bool) (acc : Rect × Int × Int)
    (r : Rect) : (blsf_step width height rot acc r).2.2 = acc.2.2 := by
  unfold blsf_step
  by_cases hc1 : r.width ≥ width ∧ r.height ≥ height
  · rw [if_pos hc1]
    by_cases hd1 : max |r.width - width| |r.height - height| < acc.2.2 ∨
        (max |r.width - width| |r.height - height| = acc.2.2 ∧
          min |r.width - width| |r.height - height| < acc.2.1)
    · rw [if_pos hd1]
      dsimp only
      split_ifs <;> rfl
    · rw [if_neg hd1]
      dsimp only
      split_ifs <;> rfl
  · rw [if_neg hc1]
    dsimp only
    split_ifs <;> rfl

theorem blsf_loop_snd (width height : Int) (rot : Bool) :
    ∀ (l : List Rect) (acc : Rect × Int × Int),
      (blsf_loop width height rot l acc).2.2 = acc.2.2 := by
  intro l
  induction l with
  | nil => intro acc; rfl
  | cons r rest ih =>
    intro acc
    simp only [blsf_loop]
    rw [ih (blsf_step width height rot acc r), blsf_step_snd]

theorem blsf_step_nofit (width height : Int) (rot : Bool) (acc : Rect × Int × Int)
    (r : Rect) (hnf : ¬ fits_either rot r width height) :
    blsf_step width height rot acc r = acc := by
  have h1 : ¬ (r.width ≥ width ∧ r.height ≥ height) :=
    fun hcontra => hnf (Or.inl hcontra)
  have h2 : ¬ (rot = true ∧ r.width ≥ height ∧ r.height ≥ width) :=
    fun hcontra => hnf (Or.inr hcontra)
  unfold blsf_step
  rw [if_neg h1, if_neg h2]

theorem blsf_step_preserve (width height : Int) (rot : Bool) (acc : Rect × Int × Int)
    (r : Rect) (hw : width ≠ 0) (hh : height ≠ 0) (ha : acc.1.height ≠ 0) :
    (blsf_step width height rot acc r).1.height ≠ 0 := by
  rcases blsf_step_shape width height rot acc r with hs | ⟨_, _, hs⟩ | ⟨_, _, _, hs⟩
  · rw [hs]; exact ha
  · rw [hs]; exact hh
  · rw [hs]; exact hw

theorem blsf_step_fit (width height : Int) (rot : Bool) (acc : Rect × Int × Int)
    (r : Rect) (W H : Int)
    (hw : 0 < width) (hh : 0 < height) (hbw : r.width ≤ W) (hbh : r.height ≤ H)
    (hW : W ≤ i32_max) (hH : H ≤ i32_max) (h22 : acc.2.2 = i32_max)
    (hfit : fits_either rot r width height) :
    (blsf_step width height rot acc r).1.height ≠ 0 := by
  have hup : (r.width ≥ width ∧ r.height ≥ height) →
      max |r.width - width| |r.height - height| < acc.2.2 := by
    rintro ⟨hfw, hfh⟩
    rw [h22]
    have habs1 : |r.width - width| = r.width - width := abs_of_nonneg (by omega)
    have habs2 : |r.height - height| = r.height - height := abs_of_nonneg (by omega)
    refine max_lt ?_ ?_
    · rw [habs1]; unfold i32_max at *; omega
    · rw [habs2]; unfold i32_max at *; omega
  have hrotc : (r.width ≥ height ∧ r.height ≥ width) →
      max |r.width - height| |r.height - width| < acc.2.2 := by
    rintro ⟨hfw, hfh⟩
    rw [h22]
    have habs1 : |r.width - height| = r.width - height := abs_of_nonneg (by omega)
    have habs2 : |r.height - width| = r.height - width := abs_of_nonneg (by omega)
    refine max_lt ?_ ?_
    · rw [habs1]; unfold i32_max at *; omega
    · rw [habs2]; unfold i32_max at *; omega
  unfold blsf_step
  by_cases hc1 : r.width ≥ width ∧ r.height ≥ height
  · rw [if_pos hc1, if_pos (Or.inl (hup hc1))]
    dsimp only
    split_ifs <;> dsimp only <;> omega
  · rcases hfit with hupfit | ⟨hrot, hfw, hfh⟩
    · exact absurd hupfit hc1
    · rw [if_neg hc1, if_pos ⟨hrot, hfw, hfh⟩, if_pos (Or.inl (hrotc ⟨hfw, hfh⟩))]
      dsimp only
      omega

theorem blsf_loop_nofit (width height : Int) (rot : Bool) :
    ∀ (l : List Rect) (acc : Rect × Int × Int),
      (∀ f ∈ l, ¬ fits_either rot f width height) →
      blsf_loop width height rot l acc = acc := by
  intro l
  induction l with
  | nil => intro acc _; rfl
  | cons r rest ih =>
    intro acc hnf
    simp only [blsf_loop]
    rw [blsf_step_nofit width height rot acc r (hnf r (List.mem_cons_self _ _))]
    exact ih acc fun f hf => hnf f (List.mem_cons_of_mem r hf)

theorem blsf_loop_shape (width height : Int) (rot : Bool) :
    ∀ (l : List Rect) (acc : Rect × Int × Int),
      (blsf_loop width height rot l acc).1 = acc.1 ∨
        node_candidate rot width height l (blsf_loop width height rot l acc).1 := by
  intro l
  induction l with
  | nil => intro acc; left; rfl
  | cons r rest ih =>
    intro acc
    simp only [blsf_loop]
    rcases ih (blsf_step width height rot acc r) with hrec | hrec
    · rw [hrec]
      rcases blsf_step_shape width height rot acc r with hs | ⟨h1, h2, hs⟩ | ⟨h1, h2, h3, hs⟩
      · rw [hs]
        exact Or.inl rfl
      · exact Or.inr ⟨r, List.mem_cons_self _ _, Or.inl ⟨h1, h2, hs⟩⟩
      · exact Or.inr ⟨r, List.mem_cons_self _ _, Or.inr ⟨h1, h2, h3, hs⟩⟩
    · exact Or.inr (node_candidate_cons hrec)

theorem blsf_loop_nonzero (width height : Int) (rot : Bool) (W H : Int)
    (hw : 0 < width) (hh : 0 < height) (hW : W ≤ i32_max) (hH : H ≤ i32_max) :
    ∀ (l : List Rect) (acc : Rect × Int × Int),
      (∀ f ∈ l, f.width ≤ W ∧ f.height ≤ H) →
      acc.2.2 = i32_max →
      ((∃ f ∈ l, fits_either rot f width height) ∨ acc.1.height ≠ 0) →
      (blsf_loop width height rot l acc).1.height ≠ 0 := by
  intro l
  induction l with
  | nil =>
    intro acc _ _ hex
    rcases hex with ⟨f, hf, _⟩ | hnz
    · exact absurd hf (List.not_mem_nil f)
    · exact hnz
  | cons r rest ih =>
    intro acc hb h22 hex
    simp only [blsf_loop]
    have hb' : ∀ f ∈ rest, f.width ≤ W ∧ f.height ≤ H :=
      fun f hf => hb f (List.mem_cons_of_mem r hf)
    have h22' : (blsf_step width height rot acc r).2.2 = i32_max := by
      rw [blsf_step_snd]; exact h22
    refine ih (blsf_step width height rot acc r) hb' h22' ?_
    rcases hex with ⟨f, hf, hfit⟩ | hnz
    · rcases List.mem_cons.1 hf with heq | hf2
      · subst heq
        right
        exact blsf_step_fit width height rot acc f W H hw hh
          (hb f (List.mem_cons_self f rest)).1
          (hb f (List.mem_cons_self f rest)).2 hW hH h22 hfit
      · exact Or.inl ⟨f, hf2, hfit⟩
    · exact Or.inr (blsf_step_preserve width height rot acc r (by omega) (by omega) hnz)

theorem baf_step_shape (width height : Int) (rot : Bool) (acc : Rect × Int × Int)
    (r : Rect) :
    baf_step width height rot acc r = acc ∨
      (r.width ≥ width ∧ r.height ≥ height ∧
        (baf_step width height rot acc r).1 = Rect.mk r.x r.y width height) ∨
      (rot = true ∧ r.width ≥ height ∧ r.height ≥ width ∧
        (baf_step width height rot acc r).1 = Rect.mk r.x r.y height width) := by
  unfold baf_step
  dsimp only
  by_cases hc1 : r.width ≥ width ∧ r.height ≥ height
  · rw [if_pos hc1]
    by_cases hd1 : r.width * r.height - width * height < acc.2.1 ∨
        (r.width * r.height - width * height = acc.2.1 ∧
          min |r.width - width| |r.height - height| < acc.2.2)
    · rw [if_pos hd1]
      dsimp only
      by_cases hc2 : rot = true ∧ r.width ≥ height ∧ r.height ≥ width
      · rw [if_pos hc2]
        by_cases hd2 : r.width * r.height - width * height <
              r.width * r.height - width * height ∨
            (r.width * r.height - width * height =
                r.width * r.height - width * height ∧
              min |r.width - height| |r.height - width| <
                min |r.width - width| |r.height - height|)
        · rw [if_pos hd2]
          exact Or.inr (Or.inr ⟨hc2.1, hc2.2.1, hc2.2.2, rfl⟩)
        · rw [if_neg hd2]
          exact Or.inr (Or.inl ⟨hc1.1, hc1.2, rfl⟩)
      · rw [if_neg hc2]
        exact Or.inr (Or.inl ⟨hc1.1, hc1.2, rfl⟩)
    · rw [if_neg hd1]
      by_cases hc2 : rot = true ∧ r.width ≥ height ∧ r.height ≥ width
      · rw [if_pos hc2]
        by_cases hd2 : r.width * r.height - width * height < acc.2.1 ∨
            (r.width * r.height - width * height = acc.2.1 ∧
              min |r.width - height| |r.height - width| < acc.2.2)
        · rw [if_pos hd2]
          exact Or.inr (Or.inr ⟨hc2.1, hc2.2.1, hc2.2.2, rfl⟩)
        · rw [if_neg hd2]
          exact Or.inl rfl
      · rw [if_neg hc2]
        exact Or.inl rfl
  · rw [if_neg hc1]
    by_cases hc2 : rot = true ∧ r.width ≥ height ∧ r.height ≥ width
    · rw [if_pos hc2]
      by_cases hd2 : r.width * r.height - width * height < acc.2.1 ∨
          (r.width * r.height - width * height = acc.2.1 ∧
            min |r.width - height| |r.height - width| < acc.2.2)
      · rw [if_pos hd2]
        exact Or.inr (Or.inr ⟨hc2.1, hc2.2.1, hc2.2.2, rfl⟩)
      · rw [if_neg hd2]
        exact Or.inl rfl
    · rw [if_neg hc2]
      exact Or.inl rfl

theorem baf_step_nofit (width height : Int) (rot : Bool) (acc : Rect × Int × Int)
    (r : Rect) (hnf : ¬ fits_either rot r width height) :
    baf_step width height rot acc r = acc := by
  have h1 : ¬ (r.width ≥ width ∧ r.height ≥ height) :=
    fun hcontra => hnf (Or.inl hcontra)
  have h2 : ¬ (rot = true ∧ r.width ≥ height ∧ r.height ≥ width) :=
    fun hcontra => hnf (Or.inr hcontra)
  unfold baf_step
  dsimp only
  rw [if_neg h1, if_neg h2]

theorem baf_step_preserve (width height : Int) (rot : Bool) (acc : Rect × Int × Int)
    (r : Rect) (hw : width ≠ 0) (hh : height ≠ 0) (ha : acc.1.height ≠ 0) :
    (baf_step width height rot acc r).1.height ≠ 0 := by
  rcases baf_step_shape width height rot acc r with hs | ⟨_, _, hs⟩ | ⟨_, _, _, hs⟩
  · rw [hs]; exact ha
  · rw [hs]; exact hh
  · rw [hs]; exact hw

theorem baf_step_inv (width height : Int) (rot : Bool) (acc : Rect × Int × Int)
    (r : Rect) (hw : width ≠ 0) (hh : height ≠ 0)
    (hinv : acc.2.1 = i32_max ∨ acc.1.height ≠ 0) :
    (baf_step width height rot acc r).2.1 = i32_max ∨
      (baf_step width height rot acc r).1.height ≠ 0 := by
  rcases baf_step_shape width height rot acc r with hs | ⟨_, _, hs⟩ | ⟨_, _, _, hs⟩
  · rw [hs]; exact hinv
  · right; rw [hs]; exact hh
  · right; rw [hs]; exact hw

theorem baf_step_fit (width height : Int) (rot : Bool) (acc : Rect × Int × Int)
    (r : Rect) (W H : Int)
    (hw : 0 < width) (hh : 0 < height)
    (hrw : 0 < r.width) (hrh : 0 < r.height)
    (hbw : r.width ≤ W) (hbh : r.height ≤ H)
    (hWH : W * H ≤ i32_max) (h21 : acc.2.1 = i32_max)
    (hfit : fits_either rot r width height) :
    (baf_step width height rot acc r).1.height ≠ 0 := by
  have harea : r.width * r.height - width * height < acc.2.1 := by
    rw [h21]
    have hmul : r.width * r.height ≤ W * H :=
      mul_le_mul hbw hbh (by omega) (by omega)
    have hone : (1 : Int) ≤ width * height := mul_pos hw hh
    omega
  unfold baf_step
  dsimp only
  by_cases hc1 : r.width ≥ width ∧ r.height ≥ height
  · rw [if_pos hc1, if_pos (Or.inl harea)]
    dsimp only
    split_ifs <;> dsimp only <;> omega
  · rcases hfit with hupfit | ⟨hrot, hfw, hfh⟩
    · exact absurd hupfit hc1
    · rw [if_neg hc1, if_pos ⟨hrot, hfw, hfh⟩, if_pos (Or.inl harea)]
      dsimp only
      omega

theorem baf_loop_nofit (width height : Int) (rot : Bool) :
    ∀ (l : List Rect) (acc : Rect × Int × Int),
      (∀ f ∈ l, ¬ fits_either rot f width height) →
      baf_loop width height rot l acc = acc := by
  intro l
  induction l with
  | nil => intro acc _; rfl
  | cons r rest ih =>
    intro acc hnf
    simp only [baf_loop]
    rw [baf_step_nofit width height rot acc r (hnf r (List.mem_cons_self _ _))]
    exact ih acc fun f hf => hnf f (List.mem_cons_of_mem r hf)

theorem baf_loop_shape (width height : Int) (rot : Bool) :
    ∀ (l : List Rect) (acc : Rect × Int × Int),
      (baf_loop width height rot l acc).1 = acc.1 ∨
        node_candidate rot width height l (baf_loop width height rot l acc).1 := by
  intro l
  induction l with
  | nil => intro acc; left; rfl
  | cons r rest ih =>
    intro acc
    simp only [baf_loop]
    rcases ih (baf_step width height rot acc r) with hrec | hrec
    · rw [hrec]
      rcases baf_step_shape width height rot acc r with hs | ⟨h1, h2, hs⟩ | ⟨h1, h2, h3, hs⟩
      · rw [hs]
        exact Or.inl rfl
      · exact Or.inr ⟨r, List.mem_cons_self _ _, Or.inl ⟨h1, h2, hs⟩⟩
      · exact Or.inr ⟨r, List.mem_cons_self _ _, Or.inr ⟨h1, h2, h3, hs⟩⟩
    · exact Or.inr (node_candidate_cons hrec)

theorem baf_loop_nonzero (width height : Int) (rot : Bool) (W H : Int)
    (hw : 0 < width) (hh : 0 < height) (hWH : W * H ≤ i32_max) :
    ∀ (l : List Rect) (acc : Rect × Int × Int),
      (∀ f ∈ l, 0 < f.width ∧ 0 < f.height ∧ f.width ≤ W ∧ f.height ≤ H) →
      (acc.2.1 = i32_max ∨ acc.1.height ≠ 0) →
      ((∃ f ∈ l, fits_either rot f width height) ∨ acc.1.height ≠ 0) →
      (baf_loop width height rot l acc).1.height ≠ 0 := by
  intro l
  induction l with
  | nil =>
    intro acc _ _ hex
    rcases hex with ⟨f, hf, _⟩ | hnz
    · exact absurd hf (List.not_mem_nil f)
    · exact hnz
  | cons r rest ih =>
    intro acc hb hinv hex
    simp only [baf_loop]
    have hb' : ∀ f ∈ rest, 0 < f.width ∧ 0 < f.height ∧ f.width ≤ W ∧ f.height ≤ H :=
      fun f hf => hb f (List.mem_cons_of_mem r hf)
    refine ih (baf_step width height rot acc r) hb'
      (baf_step_inv width height rot acc r (by omega) (by omega) hinv) ?_
    rcases hex with ⟨f, hf, hfit⟩ | hnz
    · rcases List.mem_cons.1 hf with heq | hf2
      · subst heq
        right
        rcases hinv with h21 | hnz
        · obtain ⟨hfw0, hfh0, hfwW, hfhH⟩ := hb f (List.mem_cons_self f rest)
          exact baf_step_fit width height rot acc f W H hw hh hfw0 hfh0
            hfwW hfhH hWH h21 hfit
        · exact baf_step_preserve width height rot acc f (by omega) (by omega) hnz
      · exact Or.inl ⟨f, hf2, hfit⟩
    · exact Or.inr (baf_step_preserve width height rot acc r (by omega) (by omega) hnz)

theorem bl_step_shape (width height : Int) (rot : Bool) (acc : Rect × Int × Int)
    (r : Rect) :
    bl_step width height rot acc r = acc ∨
      (r.width ≥ width ∧ r.height ≥ height ∧
        (bl_step width height rot acc r).1 = Rect.mk r.x r.y width height) ∨
      (rot = true ∧ r.width ≥ height ∧ r.height ≥ width ∧
        (bl_step width height rot acc r).1 = Rect.mk r.x r.y height width) := by
  unfold bl_step
  by_cases hc1 : r.width ≥ width ∧ r.height ≥ height
  · rw [if_pos hc1]
    by_cases hd1 : r.y + height < acc.2.1 ∨ (r.y + height = acc.2.1 ∧ r.x < acc.2.2)
    · rw [if_pos hd1]
      dsimp only
      by_cases hc2 : rot = true ∧ r.width ≥ height ∧ r.height ≥ width
      · rw [if_pos hc2]
        by_cases hd2 : r.y + width < r.y + height ∨
            (r.y + width = r.y + height ∧ r.x < r.x)
        · rw [if_pos hd2]
          exact Or.inr (Or.inr ⟨hc2.1, hc2.2.1, hc2.2.2, rfl⟩)
        · rw [if_neg hd2]
          exact Or.inr (Or.inl ⟨hc1.1, hc1.2, rfl⟩)
      · rw [if_neg hc2]
        exact Or.inr (Or.inl ⟨hc1.1, hc1.2, rfl⟩)
    · rw [if_neg hd1]
      by_cases hc2 : rot = true ∧ r.width ≥ height ∧ r.height ≥ width
      · rw [if_pos hc2]
        by_cases hd2 : r.y + width < acc.2.1 ∨ (r.y + width = acc.2.1 ∧ r.x < acc.2.2)
        · rw [if_pos hd2]
          exact Or.inr (Or.inr ⟨hc2.1, hc2.2.1, hc2.2.2, rfl⟩)
        · rw [if_neg hd2]
          exact Or.inl rfl
      · rw [if_neg hc2]
        exact Or.inl rfl
  · rw [if_neg hc1]
    by_cases hc2 : rot = true ∧ r.width ≥ height ∧ r.height ≥ width
    · rw [if_pos hc2]
      by_cases hd2 : r.y + width < acc.2.1 ∨ (r.y + width = acc.2.1 ∧ r.x < acc.2.2)
      · rw [if_pos hd2]
        exact Or.inr (Or.inr ⟨hc2.1, hc2.2.1, hc2.2.2, rfl⟩)
      · rw [if_neg hd2]
        exact Or.inl rfl
    · rw [if_neg hc2]
      exact Or.inl rfl

theorem bl_step_nofit (width height : Int) (rot : Bool) (acc : Rect × Int × Int)
    (r : Rect) (hnf : ¬ fits_either rot r width height) :
    bl_step width height rot acc r = acc := by
  have h1 : ¬ (r.width ≥ width ∧ r.height ≥ height) :=
    fun hcontra => hnf (Or.inl hcontra)
  have h2 : ¬ (rot = true ∧ r.width ≥ height ∧ r.height ≥ width) :=
    fun hcontra => hnf (Or.inr hcontra)
  unfold bl_step
  rw [if_neg h1, if_neg h2]

theorem bl_step_preserve (width height : Int) (rot : Bool) (acc : Rect × Int × Int)
    (r : Rect) (hw : width ≠ 0) (hh : height ≠ 0) (ha : acc.1.height ≠ 0) :
    (bl_step width height rot acc r).1.height ≠ 0 := by
  rcases bl_step_shape width height rot acc r with hs | ⟨_, _, hs⟩ | ⟨_, _, _, hs⟩
  · rw [hs]; exact ha
  · rw [hs]; exact hh
  · rw [hs]; exact hw

theorem bl_step_inv (width height : Int) (rot : Bool) (acc : Rect × Int × Int)
    (r : Rect) (hw : width ≠ 0) (hh : height ≠ 0)
    (hinv : acc.2.1 = i32_max ∨ acc.1.height ≠ 0) :
    (bl_step width height rot acc r).2.1 = i32_max ∨
      (bl_step width height rot acc r).1.height ≠ 0 := by
  rcases bl_step_shape width height rot acc r with hs | ⟨_, _, hs⟩ | ⟨_, _, _, hs⟩
  · rw [hs]; exact hinv
  · right; rw [hs]; exact hh
  · right; rw [hs]; exact hw

theorem bl_step_fit (width height : Int) (rot : Bool) (acc : Rect × Int × Int)
    (r : Rect) (H : Int)
    (hw : 0 < width) (hh : 0 < height)
    (hry : 0 ≤ r.y) (hrh : 0 < r.height) (hryh : r.y + r.height ≤ H)
    (hHh : H + height ≤ i32_max) (hHw : H + width ≤ i32_max)
    (h21 : acc.2.1 = i32_max)
    (hfit : fits_either rot r width height) :
    (bl_step width height rot acc r).1.height ≠ 0 := by
  have hup : r.y + height < acc.2.1 := by
    rw [h21]; unfold i32_max at *; omega
  have hrotc : r.y + width < acc.2.1 := by
    rw [h21]; unfold i32_max at *; omega
  unfold bl_step
  by_cases hc1 : r.width ≥ width ∧ r.height ≥ height
  · rw [if_pos hc1, if_pos (Or.inl hup)]
    dsimp only
    split_ifs <;> dsimp only <;> omega
  · rcases hfit with hupfit | ⟨hrot, hfw, hfh⟩
    · exact absurd hupfit hc1
    · rw [if_neg hc1, if_pos ⟨hrot, hfw, hfh⟩, if_pos (Or.inl hrotc)]
      dsimp only
      omega

theorem bl_loop_nofit (width height : Int) (rot : Bool) :
    ∀ (l : List Rect) (acc : Rect × Int × Int),
      (∀ f ∈ l, ¬ fits_either rot f width height) →
      bl_loop width height rot l acc = acc := by
  intro l
  induction l with
  | nil => intro acc _; rfl
  | cons r rest ih =>
    intro acc hnf
    simp only [bl_loop]
    rw [bl_step_nofit width height rot acc r (hnf r (List.mem_cons_self _ _))]
    exact ih acc fun f hf => hnf f (List.mem_cons_of_mem r hf)

theorem bl_loop_shape (width height : Int) (rot : Bool) :
    ∀ (l : List Rect) (acc : Rect × Int × Int),
      (bl_loop width height rot l acc).1 = acc.1 ∨
        node_candidate rot width height l (bl_loop width height rot l acc).1 := by
  intro l
  induction l with
  | nil => intro acc; left; rfl
  | cons r rest ih =>
    intro acc
    simp only [bl_loop]
    rcases ih (bl_step width height rot acc r) with hrec | hrec
    · rw [hrec]
      rcases bl_step_shape width height rot acc r with hs | ⟨h1, h2, hs⟩ | ⟨h1, h2, h3, hs⟩
      · rw [hs]
        exact Or.inl rfl
      · exact Or.inr ⟨r, List.mem_cons_self _ _, Or.inl ⟨h1, h2, hs⟩⟩
      · exact Or.inr ⟨r, List.mem_cons_self _ _, Or.inr ⟨h1, h2, h3, hs⟩⟩
    · exact Or.inr (node_candidate_cons hrec)

theorem bl_loop_nonzero (width height : Int) (rot : Bool) (H : Int)
    (hw : 0 < width) (hh : 0 < height)
    (hHh : H + height ≤ i32_max) (hHw : H + width ≤ i32_max) :
    ∀ (l : List Rect) (acc : Rect × Int × Int),
      (∀ f ∈ l, 0 ≤ f.y ∧ 0 < f.height ∧ f.y + f.height ≤ H) →
      (acc.2.1 = i32_max ∨ acc.1.height ≠ 0) →
      ((∃ f ∈ l, fits_either rot f width height) ∨ acc.1.height ≠ 0) →
      (bl_loop width height rot l acc).1.height ≠ 0 := by
  intro l
  induction l with
  | nil =>
    intro acc _ _ hex
    rcases hex with ⟨f, hf, _⟩ | hnz
    · exact absurd hf (List.not_mem_nil f)
    · exact hnz
  | cons r rest ih =>
    intro acc hb hinv hex
    simp only [bl_loop]
    have hb' : ∀ f ∈ rest, 0 ≤ f.y ∧ 0 < f.height ∧ f.y + f.height ≤ H :=
      fun f hf => hb f (List.mem_cons_of_mem r hf)
    refine ih (bl_step width height rot acc r) hb'
      (bl_step_inv width height rot acc r (by omega) (by omega) hinv) ?_
    rcases hex with ⟨f, hf, hfit⟩ | hnz
    · rcases List.mem_cons.1 hf with heq | hf2
      · subst heq
        right
        rcases hinv with h21 | hnz
        · obtain ⟨hfy, hfh0, hfyH⟩ := hb f (List.mem_cons_self f rest)
          exact bl_step_fit width height rot acc f H hw hh hfy hfh0 hfyH
            hHh hHw h21 hfit
        · exact bl_step_preserve width height rot acc f (by omega) (by omega) hnz
      · exact Or.inl ⟨f, hf2, hfit⟩
    · exact Or.inr (bl_step_preserve width height rot acc r (by omega) (by omega) hnz)

theorem common_interval_length_nonneg (a b c d : Int) (h1 : a ≤ b) (h2 : c ≤ d) :
    0 ≤ common_interval_length a b c d := by
  unfold common_interval_length
  split_ifs with h
  · exact le_refl 0
  · push_neg at h
    rcases min_cases b d with ⟨hm, _⟩ | ⟨hm, _⟩ <;>
      rcases max_cases a c with ⟨hM, _⟩ | ⟨hM, _⟩ <;> omega

theorem contact_used_loop_le (x y width height : Int)
    (hw : 0 < width) (hh : 0 < height) :
    ∀ (used : List Rect), (∀ u ∈ used, 0 < u.width ∧ 0 < u.height) →
      ∀ init : Int, init ≤ contact_used_loop x y width height used init := by
  intro used
  induction used with
  | nil => intro _ init; exact le_refl init
  | cons u rest ih =>
    intro hused init
    simp only [contact_used_loop]
    have hu := hused u (List.mem_cons_self u rest)
    have hrest : ∀ v ∈ rest, 0 < v.width ∧ 0 < v.height :=
      fun v hv => hused v (List.mem_cons_of_mem u hv)
    refine le_trans ?_ (ih hrest _)
    have hc1 := common_interval_length_nonneg u.y (u.y + u.height) y (y + height)
      (by omega) (by omega)
    have hc2 := common_interval_length_nonneg u.x (u.x + u.width) x (x + width)
      (by omega) (by omega)
    split_ifs <;> omega

theorem contact_point_score_node_nonneg (s : MaxRectsBinPack) (x y width height : Int)
    (hw : 0 < width) (hh : 0 < height)
    (hused : ∀ u ∈ s.used_rectangles, 0 < u.width ∧ 0 < u.height) :
    0 ≤ contact_point_score_node s x y width height := by
  unfold contact_point_score_node
  have hbase : (0 : Int) ≤
      (if y = 0 ∨ y + height = s.bin_height then
        (if x = 0 ∨ x + width = s.bin_width then (0 : Int) + height else 0) + width
      else (if x = 0 ∨ x + width = s.bin_width then (0 : Int) + height else 0)) := by
    split_ifs <;> omega
  exact le_trans hbase (contact_used_loop_le x y width height hw hh
    s.used_rectangles hused _)

theorem cp_step_shape (s : MaxRectsBinPack) (width height : Int) (rot : Bool)
    (acc : Rect × Int) (r : Rect) :
    cp_step s width height rot acc r = acc ∨
      (r.width ≥ width ∧ r.height ≥ height ∧
        (cp_step s width height rot acc r).1 = Rect.mk r.x r.y width height) ∨
      (rot = true ∧ r.width ≥ height ∧ r.height ≥ width ∧
        (cp_step s width height rot acc r).1 = Rect.mk r.x r.y height width) := by
  unfold cp_step
  by_cases hc1 : r.width ≥ width ∧ r.height ≥ height
  · rw [if_pos hc1]
    by_cases hd1 : contact_point_score_node s r.x r.y r.width r.height > acc.2
    · rw [if_pos hd1]
      dsimp only
      by_cases hc2 : rot = true ∧ r.width ≥ height ∧ r.height ≥ width
      · rw [if_pos hc2]
        by_cases hd2 : contact_point_score_node s r.x r.y r.height r.width >
            contact_point_score_node s r.x r.y r.width r.height
        · rw [if_pos hd2]
          exact Or.inr (Or.inr ⟨hc2.1, hc2.2.1, hc2.2.2, rfl⟩)
        · rw [if_neg hd2]
          exact Or.inr (Or.inl ⟨hc1.1, hc1.2, rfl⟩)
      · rw [if_neg hc2]
        exact Or.inr (Or.inl ⟨hc1.1, hc1.2, rfl⟩)
    · rw [if_neg hd1]
      by_cases hc2 : rot = true ∧ r.width ≥ height ∧ r.height ≥ width
      · rw [if_pos hc2]
        by_cases hd2 : contact_point_score_node s r.x r.y r.height r.width > acc.2
        · rw [if_pos hd2]
          exact Or.inr (Or.inr ⟨hc2.1, hc2.2.1, hc2.2.2, rfl⟩)
        · rw [if_neg hd2]
          exact Or.inl rfl
      · rw [if_neg hc2]
        exact Or.inl rfl
  · rw [if_neg hc1]
    by_cases hc2 : rot = true ∧ r.width ≥ height ∧ r.height ≥ width
    · rw [if_pos hc2]
      by_cases hd2 : contact_point_score_node s r.x r.y r.height r.width > acc.2
      · rw [if_pos hd2]
        exact Or.inr (Or.inr ⟨hc2.1, hc2.2.1, hc2.2.2, rfl⟩)
      · rw [if_neg hd2]
        exact Or.inl rfl
    · rw [if_neg hc2]
      exact Or.inl rfl

theorem cp_step_nofit (s : MaxRectsBinPack) (width height : Int) (rot : Bool)
    (acc : Rect × Int) (r : Rect) (hnf : ¬ fits_either rot r width height) :
    cp_step s width height rot acc r = acc := by
  have h1 : ¬ (r.width ≥ width ∧ r.height ≥ height) :=
    fun hcontra => hnf (Or.inl hcontra)
  have h2 : ¬ (rot = true ∧ r.width ≥ height ∧ r.height ≥ width) :=
    fun hcontra => hnf (Or.inr hcontra)
  unfold cp_step
  rw [if_neg h1, if_neg h2]

theorem cp_step_preserve (s : MaxRectsBinPack) (width height : Int) (rot : Bool)
    (acc : Rect × Int) (r : Rect) (hw : width ≠ 0) (hh : height ≠ 0)
    (ha : acc.1.height ≠ 0) :
    (cp_step s width height rot acc r).1.height ≠ 0 := by
  rcases cp_step_shape s width height rot acc r with hs | ⟨_, _, hs⟩ | ⟨_, _, _, hs⟩
  · rw [hs]; exact ha
  · rw [hs]; exact hh
  · rw [hs]; exact hw

theorem cp_step_inv (s : MaxRectsBinPack) (width height : Int) (rot : Bool)
    (acc : Rect × Int) (r : Rect) (hw : width ≠ 0) (hh : height ≠ 0)
    (hinv : acc.2 = -1 ∨ acc.1.height ≠ 0) :
    (cp_step s width height rot acc r).2 = -1 ∨
      (cp_step s width height rot acc r).1.height ≠ 0 := by
  rcases cp_step_shape s width height rot acc r with hs | ⟨_, _, hs⟩ | ⟨_, _, _, hs⟩
  · rw [hs]; exact hinv
  · right; rw [hs]; exact hh
  · right; rw [hs]; exact hw

theorem cp_step_fit (s : MaxRectsBinPack) (width height : Int) (rot : Bool)
    (acc : Rect × Int) (r : Rect)
    (hw : 0 < width) (hh : 0 < height)
    (hrw : 0 < r.width) (hrh : 0 < r.height)
    (hused : ∀ u ∈ s.used_rectangles, 0 < u.width ∧ 0 < u.height)
    (h2 : acc.2 = -1)
    (hfit : fits_either rot r width height) :
    (cp_step s width height rot acc r).1.height ≠ 0 := by
  have hup : contact_point_score_node s r.x r.y r.width r.height > acc.2 := by
    rw [h2]
    have := contact_point_score_node_nonneg s r.x r.y r.width r.height hrw hrh hused
    omega
  have hrotc : contact_point_score_node s r.x r.y r.height r.width > acc.2 := by
    rw [h2]
    have := contact_point_score_node_nonneg s r.x r.y r.height r.width hrh hrw hused
    omega
  unfold cp_step
  by_cases hc1 : r.width ≥ width ∧ r.height ≥ height
  · rw [if_pos hc1, if_pos hup]
    dsimp only
    split_ifs <;> dsimp only <;> omega
  · rcases hfit with hupfit | ⟨hrot, hfw, hfh⟩
    · exact absurd hupfit hc1
    · rw [if_neg hc1, if_pos ⟨hrot, hfw, hfh⟩, if_pos hrotc]
      dsimp only
      omega

theorem cp_loop_nofit (s : MaxRectsBinPack) (width height : Int) (rot : Bool) :
    ∀ (l : List Rect) (acc : Rect × Int),
      (∀ f ∈ l, ¬ fits_either rot f width height) →
      cp_loop s width height rot l acc = acc := by
  intro l
  induction l with
  | nil => intro acc _; rfl
  | cons r rest ih =>
    intro acc hnf
    simp only [cp_loop]
    rw [cp_step_nofit s width height rot acc r (hnf r (List.mem_cons_self _ _))]
    exact ih acc fun f hf => hnf f (List.mem_cons_of_mem r hf)

theorem cp_loop_shape (s : MaxRectsBinPack) (width height : Int) (rot : Bool) :
    ∀ (l : List Rect) (acc : Rect × Int),
      (cp_loop s width height rot l acc).1 = acc.1 ∨
        node_candidate rot width height l (cp_loop s width height rot l acc).1 := by
  intro l
  induction l with
  | nil => intro acc; left; rfl
  | cons r rest ih =>
    intro acc
    simp only [cp_loop]
    rcases ih (cp_step s width height rot acc r) with hrec | hrec
    · rw [hrec]
      rcases cp_step_shape s width height rot acc r with hs | ⟨h1, h2, hs⟩ | ⟨h1, h2, h3, hs⟩
      · rw [hs]
        exact Or.inl rfl
      · exact Or.inr ⟨r, List.mem_cons_self _ _, Or.inl ⟨h1, h2, hs⟩⟩
      · exact Or.inr ⟨r, List.mem_cons_self _ _, Or.inr ⟨h1, h2, h3, hs⟩⟩
    · exact Or.inr (node_candidate_cons hrec)

theorem cp_loop_nonzero (s : MaxRectsBinPack) (width height : Int) (rot : Bool)
    (hw : 0 < width) (hh : 0 < height)
    (hused : ∀ u ∈ s.used_rectangles, 0 < u.width ∧ 0 < u.height) :
    ∀ (l : List Rect) (acc : Rect × Int),
      (∀ f ∈ l, 0 < f.width ∧ 0 < f.height) →
      (acc.2 = -1 ∨ acc.1.height ≠ 0) →
      ((∃ f ∈ l, fits_either rot f width height) ∨ acc.1.height ≠ 0) →
      (cp_loop s width height rot l acc).1.height ≠ 0 := by
  intro l
  induction l with
  | nil =>
    intro acc _ _ hex
    rcases hex with ⟨f, hf, _⟩ | hnz
    · exact absurd hf (List.not_mem_nil f)
    · exact hnz
  | cons r rest ih =>
    intro acc hb hinv hex
    simp only [cp_loop]
    have hb' : ∀ f ∈ rest, 0 < f.width ∧ 0 < f.height :=
      fun f hf => hb f (List.mem_cons_of_mem r hf)
    refine ih (cp_step s width height rot acc r) hb'
      (cp_step_inv s width height rot acc r (by omega) (by omega) hinv) ?_
    rcases hex with ⟨f, hf, hfit⟩ | hnz
    · rcases List.mem_cons.1 hf with heq | hf2
      · subst heq
        right
        rcases hinv with h2 | hnz
        · obtain ⟨hfw0, hfh0⟩ := hb f (List.mem_cons_self f rest)
          exact cp_step_fit s width height rot acc f hw hh hfw0 hfh0 hused h2 hfit
        · exact cp_step_preserve s width height rot acc f (by omega) (by omega) hnz
      · exact Or.inl ⟨f, hf2, hfit⟩
    · exact Or.inr (cp_step_preserve s width height rot acc r (by omega) (by omega) hnz)

/-- Members of the survivor part of the splitting loop. -/
theorem split_all_fst (node : Rect) : ∀ (l : List Rect),
    ∀ r ∈ (split_all node l).1, r ∈ l ∧ (split_free_node r node).1 = false := by
  intro l
  induction l with
  | nil => simp [split_all]
  | cons f rest ih =>
    intro r hr
    simp only [split_all] at hr
    by_cases hs : (split_free_node f node).1
    · rw [if_pos hs] at hr
      have := ih r hr
      exact ⟨List.mem_cons_of_mem f this.1, this.2⟩
    · rw [if_neg hs] at hr
      rcases List.mem_cons.1 hr with rfl | hr
      · exact ⟨List.mem_cons_self _ _, Bool.not_eq_true _ ▸ eq_false_of_ne_true hs⟩
      · have := ih r hr
        exact ⟨List.mem_cons_of_mem f this.1, this.2⟩

/-- Members of the residual part of the splitting loop. -/
theorem split_all_snd (node : Rect) : ∀ (l : List Rect),
    ∀ p ∈ (split_all node l).2, ∃ f ∈ l, p ∈ (split_free_node f node).2 := by
  intro l
  induction l with
  | nil => simp [split_all]
  | cons f rest ih =>
    intro p hp
    simp only [split_all] at hp
    by_cases hs : (split_free_node f node).1
    · rw [if_pos hs] at hp
      rcases List.mem_append.1 hp with hp | hp
      · exact ⟨f, List.mem_cons_self _ _, hp⟩
      · obtain ⟨g, hg, hg2⟩ := ih p hp
        exact ⟨g, List.mem_cons_of_mem f hg, hg2⟩
    · rw [if_neg hs] at hp
      obtain ⟨g, hg, hg2⟩ := ih p hp
      exact ⟨g, List.mem_cons_of_mem f hg, hg2⟩

/-! ### Sentinel characterisation of the position searches -/

theorem find_bssf_zero_iff (s : MaxRectsBinPack) (rot : Bool) (w h W H : Int)
    (hw : 0 < w) (hh : 0 < h) (hW : W ≤ i32_max) (hH : H ≤ i32_max)
    (hb : ∀ f ∈ s.free_rectangles, f.width ≤ W ∧ f.height ≤ H) :
    ((find_position_for_new_node_best_short_side_fit s rot w h).1.height = 0 ↔
      ∀ f ∈ s.free_rectangles, ¬ fits_either rot f w h) := by
  constructor
  · intro h0 f hf hfit
    exact bssf_loop_nonzero w h rot W H hw hh hW hH s.free_rectangles
      (Rect.default0, i32_max, i32_max) hb (Or.inl rfl) (Or.inl ⟨f, hf, hfit⟩) h0
  · intro hnf
    unfold find_position_for_new_node_best_short_side_fit
    rw [bssf_loop_nofit w h rot s.free_rectangles _ hnf]
    rfl

theorem find_blsf_zero_iff (s : MaxRectsBinPack) (rot : Bool) (w h W H : Int)
    (hw : 0 < w) (hh : 0 < h) (hW : W ≤ i32_max) (hH : H ≤ i32_max)
    (hb : ∀ f ∈ s.free_rectangles, f.width ≤ W ∧ f.height ≤ H) :
    ((find_position_for_new_node_best_long_side_fit s rot w h).1.height = 0 ↔
      ∀ f ∈ s.free_rectangles, ¬ fits_either rot f w h) := by
  constructor
  · intro h0 f hf hfit
    exact blsf_loop_nonzero w h rot W H hw hh hW hH s.free_rectangles
      (Rect.default0, i32_max, i32_max) hb rfl (Or.inl ⟨f, hf, hfit⟩) h0
  · intro hnf
    unfold find_position_for_new_node_best_long_side_fit
    rw [blsf_loop_nofit w h rot s.free_rectangles _ hnf]
    rfl

theorem find_baf_zero_iff (s : MaxRectsBinPack) (rot : Bool) (w h W H : Int)
    (hw : 0 < w) (hh : 0 < h) (hWH : W * H ≤ i32_max)
    (hb : ∀ f ∈ s.free_rectangles, 0 < f.width ∧ 0 < f.height ∧ f.width ≤ W ∧ f.height ≤ H) :
    ((find_position_for_new_node_best_area_fit s rot w h).1.height = 0 ↔
      ∀ f ∈ s.free_rectangles, ¬ fits_either rot f w h) := by
  constructor
  · intro h0 f hf hfit
    exact baf_loop_nonzero w h rot W H hw hh hWH s.free_rectangles
      (Rect.default0, i32_max, i32_max) hb (Or.inl rfl) (Or.inl ⟨f, hf, hfit⟩) h0
  · intro hnf
    unfold find_position_for_new_node_best_area_fit
    rw [baf_loop_nofit w h rot s.free_rectangles _ hnf]
    rfl

theorem find_bl_zero_iff (s : MaxRectsBinPack) (rot : Bool) (w h H : Int)
    (hw : 0 < w) (hh : 0 < h)
    (hHh : H + h ≤ i32_max) (hHw : H + w ≤ i32_max)
    (hb : ∀ f ∈ s.free_rectangles, 0 ≤ f.y ∧ 0 < f.height ∧ f.y + f.height ≤ H) :
    ((find_position_for_new_node_bottom_left s rot w h).1.height = 0 ↔
      ∀ f ∈ s.free_rectangles, ¬ fits_either rot f w h) := by
  constructor
  · intro h0 f hf hfit
    exact bl_loop_nonzero w h rot H hw hh hHh hHw s.free_rectangles
      (Rect.default0, i32_max, i32_max) hb (Or.inl rfl) (Or.inl ⟨f, hf, hfit⟩) h0
  · intro hnf
    unfold find_position_for_new_node_bottom_left
    rw [bl_loop_nofit w h rot s.free_rectangles _ hnf]
    rfl

theorem find_cp_zero_iff (s : MaxRectsBinPack) (rot : Bool) (w h : Int)
    (hw : 0 < w) (hh : 0 < h)
    (hused : ∀ u ∈ s.used_rectangles, 0 < u.width ∧ 0 < u.height)
    (hb : ∀ f ∈ s.free_rectangles, 0 < f.width ∧ 0 < f.height) :
    ((find_position_for_new_node_contact_point s rot w h).1.height = 0 ↔
      ∀ f ∈ s.free_rectangles, ¬ fits_either rot f w h) := by
  constructor
  · intro h0 f hf hfit
    exact cp_loop_nonzero s w h rot hw hh hused s.free_rectangles
      (Rect.default0, -1) hb (Or.inl rfl) (Or.inl ⟨f, hf, hfit⟩) h0
  · intro hnf
    unfold find_position_for_new_node_contact_point
    rw [cp_loop_nofit s w h rot s.free_rectangles _ hnf]
    rfl

/-! ### The insert function -/

theorem insert_fst_node_candidate (s : MaxRectsBinPack) (width height : Int)
    (rot : Bool) (method : FreeRectChoiceHeuristic)
    (h0 : (s.insert width height rot method).1.height ≠ 0) :
    node_candidate rot width height s.free_rectangles
      (s.insert width height rot method).1 := by
  have hfst : ∀ nn : Rect, ∀ s' : MaxRectsBinPack,
      (if nn.height = 0 then (nn, s) else (nn, s')).1 = nn := by
    intro nn s'
    split_ifs <;> rfl
  cases method <;>
    simp only [MaxRectsBinPack.insert, hfst] at h0 ⊢
  case RectBestShortSideFit =>
    rcases bssf_loop_shape width height rot s.free_rectangles
        (Rect.default0, i32_max, i32_max) with hs | hs
    · exact absurd (by rw [find_position_for_new_node_best_short_side_fit, hs]; rfl) h0
    · exact hs
  case RectBestLongSideFit =>
    rcases blsf_loop_shape width height rot s.free_rectangles
        (Rect.default0, i32_max, i32_max) with hs | hs
    · exact absurd (by rw [find_position_for_new_node_best_long_side_fit]; rw [hs]; rfl) h0
    · exact hs
  case RectBestAreaFit =>
    rcases baf_loop_shape width height rot s.free_rectangles
        (Rect.default0, i32_max, i32_max) with hs | hs
    · exact absurd (by rw [find_position_for_new_node_best_area_fit, hs]; rfl) h0
    · exact hs
  case RectBottomLeftRule =>
    rcases bl_loop_shape width height rot s.free_rectangles
        (Rect.default0, i32_max, i32_max) with hs | hs
    · exact absurd (by rw [find_position_for_new_node_bottom_left, hs]; rfl) h0
    · exact hs
  case RectContactPointRule =>
    rcases cp_loop_shape s width height rot s.free_rectangles
        (Rect.default0, -1) with hs | hs
    · exact absurd (by rw [find_position_for_new_node_contact_point, hs]; rfl) h0
    · exact hs

theorem insert_sentinel_state (s : MaxRectsBinPack) (width height : Int)
    (rot : Bool) (method : FreeRectChoiceHeuristic)
    (h0 : (s.insert width height rot method).1.height = 0) :
    (s.insert width height rot method).2 = s := by
  cases method <;>
    simp only [MaxRectsBinPack.insert] at h0 ⊢ <;>
    split_ifs at h0 ⊢ with hguard <;>
    first
      | rfl
      | (exfalso; exact hguard h0)

theorem insert_success_state (s : MaxRectsBinPack) (width height : Int)
    (rot : Bool) (method : FreeRectChoiceHeuristic)
    (h0 : (s.insert width height rot method).1.height ≠ 0) :
    (s.insert width height rot method).2 =
      s.place_rect (s.insert width height rot method).1 := by
  cases method <;>
    simp only [MaxRectsBinPack.insert] at h0 ⊢ <;>
    split_ifs at h0 ⊢ with hguard <;>
    first
      | rfl
      | (exfalso; exact h0 hguard)

/-! ### The state invariant preserved by `insert` -/

/-- The inductive invariant of a `MaxRectsBinPack`: bin dimensions are
fixed, all free and used rectangles lie inside the bin with positive
dimensions, every free rectangle is disjoint from every used rectangle, and
the used rectangles are pairwise disjoint. -/
def Inv (w h : Int) (s : MaxRectsBinPack) : Prop :=
  s.bin_width = w ∧ s.bin_height = h ∧
  (∀ r ∈ s.free_rectangles, rect_in_bin w h r) ∧
  (∀ u ∈ s.used_rectangles, rect_in_bin w h u) ∧
  (∀ r ∈ s.free_rectangles, ∀ u ∈ s.used_rectangles, rect_disjoint r u) ∧
  s.used_rectangles.Pairwise rect_disjoint

theorem Inv_new (w h : Int) (hw : 0 < w) (hh : 0 < h) :
    Inv w h (MaxRectsBinPack.new w h) := by
  refine ⟨rfl, rfl, ?_, ?_, ?_, ?_⟩
  · intro r hr
    simp only [MaxRectsBinPack.new, List.mem_singleton] at hr
    subst hr
    unfold rect_in_bin
    dsimp only
    omega
  · intro u hu
    simp [MaxRectsBinPack.new] at hu
  · intro r _ u hu
    simp [MaxRectsBinPack.new] at hu
  · simp [MaxRectsBinPack.new]

theorem place_rect_inv (w h : Int) (s : MaxRectsBinPack) (node : Rect)
    (hInv : Inv w h s) (hnode : rect_in_bin w h node)
    (hdisj : ∀ u ∈ s.used_rectangles, rect_disjoint node u) :
    Inv w h (s.place_rect node) := by
  obtain ⟨hbw, hbh, hfree, hused, hfu, hpw⟩ := hInv
  have hmem : ∀ r ∈ (s.place_rect node).free_rectangles,
      rect_in_bin w h r ∧ rect_disjoint r node ∧
        ∀ u ∈ s.used_rectangles, rect_disjoint r u := by
    intro r hr
    simp only [MaxRectsBinPack.place_rect] at hr
    have hr2 : r ∈ (split_all node s.free_rectangles).1 ++
        (split_all node s.free_rectangles).2 :=
      (prune_free_list_sublist _).mem hr
    rcases List.mem_append.1 hr2 with hr3 | hr3
    · obtain ⟨hrin, hsplit⟩ := split_all_fst node s.free_rectangles r hr3
      exact ⟨hfree r hrin, (split_free_node_false_iff r node).1 hsplit,
        fun u hu => hfu r hrin u hu⟩
    · obtain ⟨f, hfin, hpiece⟩ := split_all_snd node s.free_rectangles r hr3
      obtain ⟨hcont, hdisj2, hpos⟩ := split_free_node_pieces f node r hpiece
      have hfbin := hfree f hfin
      obtain ⟨hp1, hp2⟩ := hpos hfbin.1 hfbin.2.1
      refine ⟨rect_in_bin_of_contained hcont hfbin hp1 hp2, hdisj2, ?_⟩
      intro u hu
      exact rect_disjoint_of_contained hcont (hfu f hfin u hu)
  refine ⟨hbw, hbh, fun r hr => (hmem r hr).1, ?_, ?_, ?_⟩
  · intro u hu
    simp only [MaxRectsBinPack.place_rect, List.mem_append,
      List.mem_singleton] at hu
    rcases hu with hu | rfl
    · exact hused u hu
    · exact hnode
  · intro r hr u hu
    simp only [MaxRectsBinPack.place_rect, List.mem_append,
      List.mem_singleton] at hu
    rcases hu with hu | rfl
    · exact (hmem r hr).2.2 u hu
    · exact (hmem r hr).2.1
  · simp only [MaxRectsBinPack.place_rect]
    rw [List.pairwise_append]
    refine ⟨hpw, List.pairwise_singleton _ _, ?_⟩
    intro u hu b hb
    simp only [List.mem_singleton] at hb
    subst hb
    exact rect_disjoint_symm (hdisj u hu)

theorem insert_inv (w h : Int) (s : MaxRectsBinPack) (iw ih : Int) (rot : Bool)
    (method : FreeRectChoiceHeuristic) (hiw : 0 < iw) (hih : 0 < ih)
    (hInv : Inv w h s) : Inv w h (s.insert iw ih rot method).2 := by
  by_cases h0 : (s.insert iw ih rot method).1.height = 0
  · rw [insert_sentinel_state s iw ih rot method h0]
    exact hInv
  · rw [insert_success_state s iw ih rot method h0]
    obtain ⟨f, hfin, hor⟩ := insert_fst_node_candidate s iw ih rot method h0
    have hfbin := hInv.2.2.1 f hfin
    have hnode : rect_in_bin w h (s.insert iw ih rot method).1 ∧
        Rect.is_contained_in (s.insert iw ih rot method).1 f := by
      rcases hor with ⟨hfw, hfh, heq⟩ | ⟨_, hfw, hfh, heq⟩ <;>
        rw [heq] <;>
        exact ⟨by unfold rect_in_bin at *; simp only at *; omega,
          by unfold Rect.is_contained_in; simp only; omega⟩
    refine place_rect_inv w h s _ hInv hnode.1 ?_
    intro u hu
    exact rect_disjoint_of_contained hnode.2 (hInv.2.2.2.2.1 f hfin u hu)

theorem reachable_inv (w h : Int) (s : MaxRectsBinPack)
    (hw : 0 < w) (hh : 0 < h) (hr : Reachable w h s) : Inv w h s := by
  induction hr with
  | init => exact Inv_new w h hw hh
  | step s iw ih rot method _ hiw hih ihr =>
    exact insert_inv w h s iw ih rot method hiw hih ihr


theorem ite_pair_fst {c : Prop} [Decidable c] (nn : Rect) (s1 s2 : MaxRectsBinPack) :
    (if c then (nn, s1) else (nn, s2)).1 = nn := by
  split_ifs <;> rfl

theorem insert_fst (s : MaxRectsBinPack) (width height : Int) (rot : Bool) :
    ∀ method : FreeRectChoiceHeuristic,
      (s.insert width height rot method).1 =
        match method with
        | .RectBestShortSideFit =>
          (find_position_for_new_node_best_short_side_fit s rot width height).1
        | .RectBottomLeftRule =>
          (find_position_for_new_node_bottom_left s rot width height).1
        | .RectContactPointRule =>
          (find_position_for_new_node_contact_point s rot width height).1
        | .RectBestLongSideFit =>
          (find_position_for_new_node_best_long_side_fit s rot width height).1
        | .RectBestAreaFit =>
          (find_position_for_new_node_best_area_fit s rot width height).1 := by
  intro method
  cases method <;>
    simp only [MaxRectsBinPack.insert, ite_pair_fst]

/-- The positive-area-overlap relation used to state the claims about
`DisjointRectCollection`: the two rectangles share a region of positive
width and positive height. -/
def shares_positive_area (a b : Rect) : Prop :=
  max a.x b.x < min (a.x + a.width) (b.x + b.width) ∧
    max a.y b.y < min (a.y + a.height) (b.y + b.height)

instance (a b : Rect) : Decidable (shares_positive_area a b) := by
  unfold shares_positive_area; infer_instance

/-! ### Claim theorems -/

/-- **C1**: for every `MaxRectsBinPack` created with positive bin dimensions
and every sequence of `insert` calls with positive item dimensions, the
rectangles accumulated in `used_rectangles` are pairwise disjoint (in the
sense of `disjoint` from `src/rect.rs`: no two placements overlap in
area). -/
theorem used_rectangles_pairwise_disjoint (w h : Int) (s : MaxRectsBinPack)
    (hw : 0 < w) (hh : 0 < h) (hr : Reachable w h s) :
    s.used_rectangles.Pairwise rect_disjoint :=
  (reachable_inv w h s hw hh hr).2.2.2.2.2

theorem used_rectangles_pairwise_disjoint_witness :
    (0 : Int) < 10 ∧ (0 : Int) < 10 ∧
    ((((MaxRectsBinPack.new 10 10).insert 6 4 false
          .RectBestShortSideFit).2.insert 5 5 false
        .RectBottomLeftRule).2).used_rectangles.Pairwise rect_disjoint :=
  ⟨by decide, by decide,
    used_rectangles_pairwise_disjoint 10 10 _ (by decide) (by decide)
      (Reachable.step _ 5 5 false _
        (Reachable.step _ 6 4 false _ Reachable.init (by decide) (by decide))
        (by decide) (by decide))⟩

/-- **C2**: after every `place_rect` call (hence after every successful
`insert`), the free-rectangle set contains no rectangle contained in
another, where containment is `Rect::is_contained_in`. -/
theorem place_rect_free_not_contained (s : MaxRectsBinPack) (node : Rect) :
    ((s.place_rect node).free_rectangles).Pairwise
      (fun a b => ¬ a.is_contained_in b ∧ ¬ b.is_contained_in a) := by
  simp only [MaxRectsBinPack.place_rect]
  exact prune_free_list_pairwise _

/-- **C3**: for a reachable `MaxRectsBinPack` state (with bin dimensions
representable in `i32` arithmetic) and positive item dimensions, `insert`
returns the null-sentinel rectangle (`height = 0`) if and only if no free
rectangle can accommodate the item in either allowed orientation; in that
case the state is not mutated, and on success the used list is extended by
exactly the returned placement while the free list is rebuilt by splitting
and pruning — both in the same call. -/
theorem insert_sentinel_iff (w h : Int) (s : MaxRectsBinPack) (iw ih : Int)
    (rot : Bool) (method : FreeRectChoiceHeuristic)
    (hw : 0 < w) (hh : 0 < h) (hwh : w * h ≤ i32_max)
    (hhw : h + iw ≤ i32_max) (hhh : h + ih ≤ i32_max)
    (hr : Reachable w h s) (hiw : 0 < iw) (hih : 0 < ih) :
    ((s.insert iw ih rot method).1.height = 0 ↔
      ∀ f ∈ s.free_rectangles, ¬ fits_either rot f iw ih) ∧
    ((s.insert iw ih rot method).1.height = 0 →
      (s.insert iw ih rot method).2 = s) ∧
    ((s.insert iw ih rot method).1.height ≠ 0 →
      (s.insert iw ih rot method).2.used_rectangles =
        s.used_rectangles ++ [(s.insert iw ih rot method).1] ∧
      (s.insert iw ih rot method).2.free_rectangles =
        prune_free_list
          ((split_all (s.insert iw ih rot method).1 s.free_rectangles).1 ++
            (split_all (s.insert iw ih rot method).1 s.free_rectangles).2)) := by
  have hInv := reachable_inv w h s hw hh hr
  have hW : w ≤ i32_max :=
    le_trans (le_mul_of_one_le_right (le_of_lt hw) (by omega)) hwh
  have hH : h ≤ i32_max :=
    le_trans (le_mul_of_one_le_left (le_of_lt hh) (by omega)) hwh
  have hfree := hInv.2.2.1
  have hused := hInv.2.2.2.1
  have hb1 : ∀ f ∈ s.free_rectangles, f.width ≤ w ∧ f.height ≤ h := by
    intro f hf
    have := hfree f hf
    unfold rect_in_bin at this
    omega
  have hb2 : ∀ f ∈ s.free_rectangles,
      0 < f.width ∧ 0 < f.height ∧ f.width ≤ w ∧ f.height ≤ h := by
    intro f hf
    have := hfree f hf
    unfold rect_in_bin at this
    omega
  have hb3 : ∀ f ∈ s.free_rectangles, 0 ≤ f.y ∧ 0 < f.height ∧ f.y + f.height ≤ h := by
    intro f hf
    have := hfree f hf
    unfold rect_in_bin at this
    omega
  have hb4 : ∀ u ∈ s.used_rectangles, 0 < u.width ∧ 0 < u.height := by
    intro u hu
    have := hused u hu
    unfold rect_in_bin at this
    omega
  have hb5 : ∀ f ∈ s.free_rectangles, 0 < f.width ∧ 0 < f.height := by
    intro f hf
    have := hfree f hf
    unfold rect_in_bin at this
    omega
  have hiff : ((s.insert iw ih rot method).1.height = 0 ↔
      ∀ f ∈ s.free_rectangles, ¬ fits_either rot f iw ih) := by
    rw [insert_fst]
    cases method
    case RectBestShortSideFit =>
      exact find_bssf_zero_iff s rot iw ih w h hiw hih hW hH hb1
    case RectBestLongSideFit =>
      exact find_blsf_zero_iff s rot iw ih w h hiw hih hW hH hb1
    case RectBestAreaFit =>
      exact find_baf_zero_iff s rot iw ih w h hiw hih hwh hb2
    case RectBottomLeftRule =>
      exact find_bl_zero_iff s rot iw ih h hiw hih hhh hhw hb3
    case RectContactPointRule =>
      exact find_cp_zero_iff s rot iw ih hiw hih hb4 hb5
  refine ⟨hiff, fun h0 => insert_sentinel_state s iw ih rot method h0, fun h0 => ?_⟩
  rw [insert_success_state s iw ih rot method h0]
  exact ⟨rfl, rfl⟩

theorem insert_sentinel_iff_witness :
    (0 : Int) < 10 ∧ (0 : Int) < 10 ∧ (10 : Int) * 10 ≤ i32_max ∧
    (10 : Int) + 3 ≤ i32_max ∧ (10 : Int) + 3 ≤ i32_max ∧ (0 : Int) < 3 ∧ (0 : Int) < 3 ∧
    ((((MaxRectsBinPack.new 10 10).insert 3 3 false
          .RectBestShortSideFit).1.height = 0 ↔
        ∀ f ∈ (MaxRectsBinPack.new 10 10).free_rectangles,
          ¬ fits_either false f 3 3) ∧
      (((MaxRectsBinPack.new 10 10).insert 3 3 false
          .RectBestShortSideFit).1.height = 0 →
        ((MaxRectsBinPack.new 10 10).insert 3 3 false
          .RectBestShortSideFit).2 = MaxRectsBinPack.new 10 10) ∧
      (((MaxRectsBinPack.new 10 10).insert 3 3 false
          .RectBestShortSideFit).1.height ≠ 0 →
        ((MaxRectsBinPack.new 10 10).insert 3 3 false
            .RectBestShortSideFit).2.used_rectangles =
          (MaxRectsBinPack.new 10 10).used_rectangles ++
            [((MaxRectsBinPack.new 10 10).insert 3 3 false
              .RectBestShortSideFit).1] ∧
        ((MaxRectsBinPack.new 10 10).insert 3 3 false
            .RectBestShortSideFit).2.free_rectangles =
          prune_free_list
            ((split_all ((MaxRectsBinPack.new 10 10).insert 3 3 false
                  .RectBestShortSideFit).1
                (MaxRectsBinPack.new 10 10).free_rectangles).1 ++
              (split_all ((MaxRectsBinPack.new 10 10).insert 3 3 false
                  .RectBestShortSideFit).1
                (MaxRectsBinPack.new 10 10).free_rectangles).2))) :=
  ⟨by decide, by decide, by decide, by decide, by decide, by decide, by decide,
    insert_sentinel_iff 10 10 (MaxRectsBinPack.new 10 10) 3 3 false
      .RectBestShortSideFit (by decide) (by decide) (by decide) (by decide)
      (by decide) Reachable.init (by decide) (by decide)⟩

theorem shrink_loop_zero (fuel : Nat) : ∀ w : Int, 0 ≤ w →
    shrink_loop fuel w 0 = none := by
  induction fuel with
  | zero =>
    intro w hw
    unfold shrink_loop
    rw [if_pos (Int.tdiv_nonneg hw (by omega))]
  | succ fuel ih =>
    intro w hw
    unfold shrink_loop
    rw [if_pos (Int.tdiv_nonneg hw (by omega))]
    exact ih _ (Int.tdiv_nonneg hw (by omega))

/-- **C4**: `Packer::pack` does **not** terminate when zero images are
placed in the bin: with the tight bounds `ww`/`hh` still `0`, the guard
`self.width / 2 >= ww` of the final halving loop holds for every
nonnegative width, so the loop never exits.  At the failing input (64×64
bin, single 100×100 image, any flags and heuristic) `pack` runs out of any
amount of halving fuel — it returns `none` for every `fuel`, i.e. the
halving loop diverges and the driver's fatal cannot-fit check in
`src/main.rs` is never reached. -/
theorem pack_none_of_ww_zero (p : Packer) (images : List ImageWrapper)
    (unique rotate : Bool) (method : FreeRectChoiceHeuristic) (fuel : Nat)
    (h : (pack_loop unique rotate method p
      (MaxRectsBinPack.new p.width p.height) 0 0 images).2.2.1 = 0)
    (hw : 0 ≤ (pack_loop unique rotate method p
      (MaxRectsBinPack.new p.width p.height) 0 0 images).1.width) :
    p.pack images unique rotate method fuel = none := by
  unfold Packer.pack
  dsimp only
  rw [h, shrink_loop_zero fuel _ hw]

theorem pack_diverges_when_nothing_placed (fuel : Nat) (unique rotate : Bool)
    (method : FreeRectChoiceHeuristic) :
    (Packer.new 64 64 0).pack [⟨"big", 100, 100, [], 7⟩] unique rotate method
      fuel = none := by
  have hloop : pack_loop unique rotate method (Packer.new 64 64 0)
      (MaxRectsBinPack.new (Packer.new 64 64 0).width
        (Packer.new 64 64 0).height) 0 0 [⟨"big", 100, 100, [], 7⟩] =
      (Packer.new 64 64 0, MaxRectsBinPack.new 64 64, 0, 0,
        [⟨"big", 100, 100, [], 7⟩]) := by
    cases unique <;> cases rotate <;> cases method <;> decide
  refine pack_none_of_ww_zero (Packer.new 64 64 0) _ unique rotate method fuel ?_ ?_
  · rw [hloop]
  · rw [hloop]
    decide

/-- **C5**: the contact-point position search does not maximise the
claimed item-contact score: `find_position_for_new_node_contact_point`
passes the free rectangle's own `width`/`height` to
`contact_point_score_node` instead of the item's.  On the reachable 12×12
state built by three best-short-side-fit insertions, inserting a 2×2 item
under the contact-point rule places it at `(8, 4)`, although the corner
`(4, 10)` of the fitting free rectangle `(4, 10, 8, 2)` has contact score
`6` for the 2×2 item, strictly greater than the score `4` of the chosen
placement — contradicting the claimed maximisation. -/
theorem contact_point_scores_free_rect_dims :
    (((((MaxRectsBinPack.new 12 12).insert 4 12 false
          .RectBestShortSideFit).2.insert 8 4 false
          .RectBestShortSideFit).2.insert 4 6 false
          .RectBestShortSideFit).2.insert 2 2 false
          .RectContactPointRule).1 = ⟨8, 4, 2, 2⟩ ∧
    (⟨4, 10, 8, 2⟩ : Rect) ∈
      ((((MaxRectsBinPack.new 12 12).insert 4 12 false
          .RectBestShortSideFit).2.insert 8 4 false
          .RectBestShortSideFit).2.insert 4 6 false
          .RectBestShortSideFit).2.free_rectangles ∧
    (2 : Int) ≤ 8 ∧ (2 : Int) ≤ 2 ∧
    contact_point_score_node
      ((((MaxRectsBinPack.new 12 12).insert 4 12 false
          .RectBestShortSideFit).2.insert 8 4 false
          .RectBestShortSideFit).2.insert 4 6 false
          .RectBestShortSideFit).2 4 10 2 2 = 6 ∧
    contact_point_score_node
      ((((MaxRectsBinPack.new 12 12).insert 4 12 false
          .RectBestShortSideFit).2.insert 8 4 false
          .RectBestShortSideFit).2.insert 4 6 false
          .RectBestShortSideFit).2 8 4 2 2 = 4 := by
  decide

/-- **C6** (counterexample): in the best-long-side-fit search the claim
fails: on the fresh 10×10 bin with a fitting 4×6 item, the returned
secondary score (`best_short_side_fit`) is `4` — the freshly computed
candidate value, not the frozen `i32::MAX` sentinel — while the returned
primary score (`best_long_side_fit`) is the one stuck at `i32::MAX`. -/
theorem blsf_secondary_is_assigned :
    find_position_for_new_node_best_long_side_fit (MaxRectsBinPack.new 10 10)
        false 4 6 = (⟨0, 0, 4, 6⟩, 2147483647, 4) ∧
      (4 : Int) ≠ 2147483647 := by
  decide

/-- **C6** (amended): the accumulator frozen by the self-assignment
`best_long_side_fit = best_long_side_fit` is `best_long_side_fit` in both
searches.  In best-short-side-fit it is the returned **secondary** score,
which therefore stays at the `i32::MAX` sentinel for every state and item
(so the secondary tie-break never refines the choice); in
best-long-side-fit it is the returned **primary** score, which stays at
`i32::MAX` while the secondary short-side accumulator is updated
normally. -/
theorem self_assigned_long_side_is_frozen (s : MaxRectsBinPack) (rot : Bool)
    (w h : Int) :
    (find_position_for_new_node_best_short_side_fit s rot w h).2.2 = i32_max ∧
    (find_position_for_new_node_best_long_side_fit s rot w h).2.1 = i32_max := by
  constructor
  · unfold find_position_for_new_node_best_short_side_fit
    rw [bssf_loop_snd]
  · unfold find_position_for_new_node_best_long_side_fit
    dsimp only
    rw [blsf_loop_snd]

/-- **C7** (counterexample): the unplaced image is **not** pushed onto the
opposite end from the one `pack` consumes from.  With the `Vec`-order queue
`[a, big]`, `pack` pops `big` (the back), `insert` fails, and the leftover
queue is again `[a, big]`: the unfit image sits at the back — the
consumption end — not at the front as the claim states. -/
theorem unfit_image_not_pushed_to_front :
    (pack_loop false false .RectBestShortSideFit (Packer.new 64 64 0)
        (MaxRectsBinPack.new 64 64) 0 0
        [⟨"a", 1, 1, [], 1⟩, ⟨"big", 100, 100, [], 2⟩]).2.2.2.2 =
      [⟨"a", 1, 1, [], 1⟩, ⟨"big", 100, 100, [], 2⟩] ∧
    ([⟨"a", 1, 1, [], 1⟩, ⟨"big", 100, 100, [], 2⟩] : List ImageWrapper) ≠
      [⟨"big", 100, 100, [], 2⟩, ⟨"a", 1, 1, [], 1⟩] := by
  decide

/-- **C7** (amended): when `insert` returns the null sentinel during the
pack loop, the unplaced image is pushed back onto the **same** end of the
shared queue that `pack` consumes from (the back of the `Vec`, so the next
bin pops it first), the rest of the queue is left unconsumed, and the
packer state, bin state and tight bounds are unchanged — `pack` stops
consuming. -/
theorem unfit_image_closes_bin (unique rotate : Bool)
    (method : FreeRectChoiceHeuristic) (p : Packer) (bin : MaxRectsBinPack)
    (ww hh : Int) (qf : List ImageWrapper) (image : ImageWrapper)
    (hdup : ¬ (unique = true ∧ ∃ idx,
      List.lookup image.hash_value p.dup_lookup = some idx ∧
        image_eq image (p.images.getD idx ImageWrapper.dummy)))
    (hins : (bin.insert (image.width + p.pad) (image.height + p.pad) rotate
      method).1.height = 0) :
    pack_loop unique rotate method p bin ww hh (qf ++ [image]) =
      (p, bin, ww, hh, qf ++ [image]) := by
  have hrev : (qf ++ [image]).reverse = image :: qf.reverse := by
    simp
  have hdup2 : (if unique then
      match List.lookup image.hash_value p.dup_lookup with
      | some idx =>
        if image_eq image (p.images.getD idx ImageWrapper.dummy) then some idx
        else none
      | none => none
    else none) = (none : Option Nat) := by
    cases unique
    · rfl
    · cases hlk : List.lookup image.hash_value p.dup_lookup with
      | none => simp
      | some idx =>
        simp only [if_true]
        rw [if_neg]
        intro heq
        exact hdup ⟨rfl, idx, hlk, heq⟩
  have hguard : (bin.insert (image.width + p.pad) (image.height + p.pad) rotate
      method).1.width = 0 ∨
      (bin.insert (image.width + p.pad) (image.height + p.pad) rotate
        method).1.height = 0 := Or.inr hins
  have hstate := insert_sentinel_state bin (image.width + p.pad)
    (image.height + p.pad) rotate method hins
  unfold pack_loop
  rw [hrev]
  simp only [pack_go, hdup2]
  rw [if_pos hguard, hstate]
  simp

theorem unfit_image_closes_bin_witness :
    (¬ ((false : Bool) = true ∧ ∃ idx,
      List.lookup (2 : Nat) (Packer.new 64 64 0).dup_lookup = some idx ∧
        image_eq ⟨"big", 100, 100, [], 2⟩
          ((Packer.new 64 64 0).images.getD idx ImageWrapper.dummy))) ∧
    ((MaxRectsBinPack.new 64 64).insert (100 + (Packer.new 64 64 0).pad)
      (100 + (Packer.new 64 64 0).pad) false .RectBestShortSideFit).1.height = 0 ∧
    pack_loop false false .RectBestShortSideFit (Packer.new 64 64 0)
        (MaxRectsBinPack.new 64 64) 0 0
        ([⟨"a", 1, 1, [], 1⟩] ++ [⟨"big", 100, 100, [], 2⟩]) =
      (Packer.new 64 64 0, MaxRectsBinPack.new 64 64, 0, 0,
        [⟨"a", 1, 1, [], 1⟩] ++ [⟨"big", 100, 100, [], 2⟩]) :=
  ⟨by decide, by decide,
    unfit_image_closes_bin false false .RectBestShortSideFit
      (Packer.new 64 64 0) (MaxRectsBinPack.new 64 64) 0 0
      [⟨"a", 1, 1, [], 1⟩] ⟨"big", 100, 100, [], 2⟩ (by decide) (by decide)⟩

/-- **C8**: with dedup enabled, consuming an image whose fingerprint is in
the lookup table and which is equal (same dimensions and pixel data, per
`PartialEq for ImageWrapper`) to the recorded image at that index records a
`Point` copying the earlier point's `x`, `y` and rotation flag with
`dup_id` set to the earlier index, and continues with the bin state and the
tight bounds `ww`/`hh` untouched — no `insert` call happens for this
image. -/
theorem duplicate_image_is_aliased (rotate : Bool)
    (method : FreeRectChoiceHeuristic) (p : Packer) (bin : MaxRectsBinPack)
    (ww hh : Int) (image : ImageWrapper) (rest : List ImageWrapper) (idx : Nat)
    (hlook : List.lookup image.hash_value p.dup_lookup = some idx)
    (heq : image_eq image (p.images.getD idx ImageWrapper.dummy)) :
    pack_go true rotate method p bin ww hh (image :: rest) =
      pack_go true rotate method
        { p with
          points := p.points ++
            [⟨(p.points.getD idx Point.dummy).x,
              (p.points.getD idx Point.dummy).y, (idx : Int),
              (p.points.getD idx Point.dummy).rot⟩],
          images := p.images ++ [image] }
        bin ww hh rest := by
  conv_lhs => rw [pack_go]
  simp only [hlook, if_pos heq, if_true]

theorem duplicate_image_is_aliased_witness :
    List.lookup (5 : Nat)
        (⟨64, 64, 0, [⟨"x", 2, 2, [9, 9], 5⟩], [⟨3, 4, -1, true⟩],
          [(5, 0)]⟩ : Packer).dup_lookup = some 0 ∧
    image_eq ⟨"y", 2, 2, [9, 9], 5⟩
      ((⟨64, 64, 0, [⟨"x", 2, 2, [9, 9], 5⟩], [⟨3, 4, -1, true⟩],
        [(5, 0)]⟩ : Packer).images.getD 0 ImageWrapper.dummy) ∧
    pack_go true false .RectBestShortSideFit
        ⟨64, 64, 0, [⟨"x", 2, 2, [9, 9], 5⟩], [⟨3, 4, -1, true⟩], [(5, 0)]⟩
        (MaxRectsBinPack.new 64 64) 7 8 [⟨"y", 2, 2, [9, 9], 5⟩] =
      pack_go true false .RectBestShortSideFit
        ⟨64, 64, 0,
          [⟨"x", 2, 2, [9, 9], 5⟩, ⟨"y", 2, 2, [9, 9], 5⟩],
          [⟨3, 4, -1, true⟩, ⟨3, 4, 0, true⟩], [(5, 0)]⟩
        (MaxRectsBinPack.new 64 64) 7 8 [] :=
  ⟨by decide, by decide, by
    have h := duplicate_image_is_aliased false .RectBestShortSideFit
      ⟨64, 64, 0, [⟨"x", 2, 2, [9, 9], 5⟩], [⟨3, 4, -1, true⟩], [(5, 0)]⟩
      (MaxRectsBinPack.new 64 64) 7 8 ⟨"y", 2, 2, [9, 9], 5⟩ [] 0
      (by decide) (by decide)
    simpa using h⟩

/-- **C9** (counterexample): the claim fails for rectangles with negative
dimensions: against the collection holding `(0, 0, 100, 100)`, adding
`(50, 50, -5, -5)` — neither width nor height is `0`, so the degenerate
branch is not taken — returns `false` and leaves the collection unchanged,
although the rectangle shares no positive-area overlap with the member. -/
theorem add_rejects_overlap_free_negative_rect :
    (DisjointRectCollection.add ⟨[⟨0, 0, 100, 100⟩]⟩ ⟨50, 50, -5, -5⟩).1 =
        false ∧
      (DisjointRectCollection.add ⟨[⟨0, 0, 100, 100⟩]⟩
          ⟨50, 50, -5, -5⟩).2.rects = [⟨0, 0, 100, 100⟩] ∧
      ∀ m ∈ ([⟨0, 0, 100, 100⟩] : List Rect),
        ¬ shares_positive_area m ⟨50, 50, -5, -5⟩ := by
  decide

/-- **C9** (amended): for every `DisjointRectCollection` state and every
rectangle `r`: if `r` has zero width or zero height, `add` returns `true`
and leaves the collection unchanged; and provided `r` and all members have
**positive** dimensions, `add` returns `false` leaving the collection
unchanged exactly when `r` shares positive area with some member, and
returns `true` after appending `r` otherwise. -/
theorem add_spec (c : DisjointRectCollection) (r : Rect) :
    ((r.width = 0 ∨ r.height = 0) → c.add r = (true, c)) ∧
    ((0 < r.width ∧ 0 < r.height ∧
        ∀ m ∈ c.rects, 0 < m.width ∧ 0 < m.height) →
      (((c.add r).1 = false ↔ ∃ m ∈ c.rects, shares_positive_area m r) ∧
        ((c.add r).1 = false → (c.add r).2 = c) ∧
        ((c.add r).1 = true → (c.add r).2.rects = c.rects ++ [r]))) := by
  constructor
  · intro hdeg
    unfold DisjointRectCollection.add
    rw [if_pos hdeg]
  · rintro ⟨hrw, hrh, hm⟩
    have hdeg : ¬ (r.width = 0 ∨ r.height = 0) := by omega
    have hkey : (¬ c.disjoint r) ↔ ∃ m ∈ c.rects, shares_positive_area m r := by
      unfold DisjointRectCollection.disjoint
      constructor
      · intro hnd
        push_neg at hnd
        obtain ⟨_, m, hmem, hmd⟩ := hnd
        refine ⟨m, hmem, ?_⟩
        have := hm m hmem
        unfold rect_disjoint at hmd
        unfold shares_positive_area
        push_neg at hmd
        rcases min_cases (m.x + m.width) (r.x + r.width) with ⟨h1, _⟩ | ⟨h1, _⟩ <;>
          rcases max_cases m.x r.x with ⟨h2, _⟩ | ⟨h2, _⟩ <;>
          rcases min_cases (m.y + m.height) (r.y + r.height) with ⟨h3, _⟩ | ⟨h3, _⟩ <;>
          rcases max_cases m.y r.y with ⟨h4, _⟩ | ⟨h4, _⟩ <;>
          constructor <;> omega
      · rintro ⟨m, hmem, hov⟩
        intro hd
        rcases hd with hdg | hall
        · omega
        · have hmd := hall m hmem
          unfold rect_disjoint at hmd
          unfold shares_positive_area at hov
          rcases min_cases (m.x + m.width) (r.x + r.width) with ⟨h1, _⟩ | ⟨h1, _⟩ <;>
            rcases max_cases m.x r.x with ⟨h2, _⟩ | ⟨h2, _⟩ <;>
            rcases min_cases (m.y + m.height) (r.y + r.height) with ⟨h3, _⟩ | ⟨h3, _⟩ <;>
            rcases max_cases m.y r.y with ⟨h4, _⟩ | ⟨h4, _⟩ <;>
            omega
    unfold DisjointRectCollection.add
    rw [if_neg hdeg]
    by_cases hnd : ¬ c.disjoint r
    · rw [if_pos hnd]
      exact ⟨⟨fun _ => hkey.1 hnd, fun _ => rfl⟩, fun _ => rfl,
        fun hcontra => absurd hcontra (by simp)⟩
    · rw [if_neg hnd]
      exact ⟨⟨fun hcontra => absurd hcontra (by simp),
          fun hex => absurd (hkey.2 hex) hnd⟩,
        fun hcontra => absurd hcontra (by simp), fun _ => rfl⟩

theorem add_spec_witness :
    ((0 : Int) < 4 ∧ (0 : Int) < 4 ∧
      ∀ m ∈ ([⟨0, 0, 4, 4⟩] : List Rect), 0 < m.width ∧ 0 < m.height) ∧
    (((DisjointRectCollection.add ⟨[⟨0, 0, 4, 4⟩]⟩ ⟨2, 2, 4, 4⟩).1 = false ↔
        ∃ m ∈ ([⟨0, 0, 4, 4⟩] : List Rect),
          shares_positive_area m ⟨2, 2, 4, 4⟩) ∧
      ((DisjointRectCollection.add ⟨[⟨0, 0, 4, 4⟩]⟩ ⟨2, 2, 4, 4⟩).1 = false →
        (DisjointRectCollection.add ⟨[⟨0, 0, 4, 4⟩]⟩ ⟨2, 2, 4, 4⟩).2 =
          ⟨[⟨0, 0, 4, 4⟩]⟩) ∧
      ((DisjointRectCollection.add ⟨[⟨0, 0, 4, 4⟩]⟩ ⟨2, 2, 4, 4⟩).1 = true →
        (DisjointRectCollection.add ⟨[⟨0, 0, 4, 4⟩]⟩ ⟨2, 2, 4, 4⟩).2.rects =
          [⟨0, 0, 4, 4⟩] ++ [⟨2, 2, 4, 4⟩])) :=
  ⟨by decide, (add_spec ⟨[⟨0, 0, 4, 4⟩]⟩ ⟨2, 2, 4, 4⟩).2 (by decide)⟩

/-- **C10**: the removal-and-decrement branch of `prune_free_list` **is**
taken at `i = 0` on a reachable free-rectangle set, so the `i -= 1`
subtraction does underflow.  On the 6×6 bin after inserting 1×2
(bottom-left) and 1×1 (best-short-side-fit), the contact-point position for
a 2×4 item is a real placement (`height ≠ 0`), and pruning the
post-split free list that `place_rect` builds for it removes index `0`
(the piece `(1, 4, 5, 2)` is contained in the later piece `(0, 4, 6, 2)`)
while `i = 0`. -/
theorem prune_removal_hits_index_zero :
    ((find_position_for_new_node_contact_point
        ((((MaxRectsBinPack.new 6 6).insert 1 2 false
            .RectBottomLeftRule).2).insert 1 1 false
            .RectBestShortSideFit).2 false 2 4).1.height ≠ 0) ∧
    prune_hits_zero
      ((split_all
          (find_position_for_new_node_contact_point
            ((((MaxRectsBinPack.new 6 6).insert 1 2 false
                .RectBottomLeftRule).2).insert 1 1 false
                .RectBestShortSideFit).2 false 2 4).1
          ((((MaxRectsBinPack.new 6 6).insert 1 2 false
              .RectBottomLeftRule).2).insert 1 1 false
              .RectBestShortSideFit).2.free_rectangles).1 ++
        (split_all
          (find_position_for_new_node_contact_point
            ((((MaxRectsBinPack.new 6 6).insert 1 2 false
                .RectBottomLeftRule).2).insert 1 1 false
                .RectBestShortSideFit).2 false 2 4).1
          ((((MaxRectsBinPack.new 6 6).insert 1 2 false
              .RectBottomLeftRule).2).insert 1 1 false
              .RectBestShortSideFit).2.free_rectangles).2) = true := by
  decide

end Impact